import Mathlib

/-!
# Verification of the lodestar range-sync core

Shallow embedding of the range-sync subsystem:

* `sync/range/utils/updateChains.ts` — `validateBatchesStatus`, `getNextBatchToProcess`,
  `toBeProcessedStartEpoch`, `toBeDownloadedStartEpoch`, `updateChains`,
  `updateFinalizedChains`, `updateHeadChains`;
* `sync/range/chain.ts` — the `SyncChain` class (`advanceChain`, `startSyncing`,
  `stopSyncing`, `includeNextBatch`, `isRemovable`, the error handler of `sync()`);
* `sync/asStateMachine/batch.ts` and `sync/asStateMachine/chain.ts` — the older
  state-machine prototype (`Batch` transitions, the retry-peer selection of
  `requestBatches`).

JS numbers that hold epochs and slots are modelled as `Int` (they may go negative in
intermediate arithmetic, e.g. `localFinalizedEpoch - startEpoch`); `Math.floor` of an
integer quotient is `Int.fdiv`.  Peer ids (`PeerId`, compared through `toB58String`)
are modelled as `Nat`; block-hash roots as `List Nat` (byte arrays, compared with
`byteArrayEquals`).

A few helpers of the repository are not among the sources (only their callers are);
they are modelled from the spec and say so in their doc comments.
-/

namespace LodestarRangeSync

/-- PeerId, compared by its serialized form (`toB58String`). -/
abbrev Peer := Nat

/-- A byte array (`Root` of `hashBlocks`); compared with `byteArrayEquals`. -/
abbrev Root := List Nat

/-- A beacon-chain slot (JS number). -/
abbrev Slot := Int

/-- A beacon-chain epoch (JS number). -/
abbrev Epoch := Int

/-- A signed beacon block, identified by its hash-tree-root. -/
abbrev Block := Nat

/-- `Attempt` (sync/asStateMachine/batch.ts and §3 of the spec): the `(peer, hash)`
witness of one download that reached processing. -/
structure Attempt where
  peer : Peer
  hash : Root
deriving DecidableEq, Repr

/-- `BatchStatus` (sync/asStateMachine/batch.ts). -/
inductive BatchStatus
  | awaitingDownload
  | downloading
  | awaitingProcessing
  | processing
  | awaitingValidation
deriving DecidableEq, Repr

/-- `BatchState` (sync/asStateMachine/batch.ts): tagged union with payload. -/
inductive BatchState
  | awaitingDownload
  | downloading (peer : Peer) (blocks : List Block)
  | awaitingProcessing (peer : Peer) (blocks : List Block)
  | processing (attempt : Attempt)
  | awaitingValidation (attempt : Attempt)
deriving DecidableEq, Repr

/-- The `status` discriminant of a `BatchState`. -/
def BatchState.status : BatchState → BatchStatus
  | .awaitingDownload => .awaitingDownload
  | .downloading _ _ => .downloading
  | .awaitingProcessing _ _ => .awaitingProcessing
  | .processing _ => .processing
  | .awaitingValidation _ => .awaitingValidation

/-- `hashBlocks` (sync/asStateMachine/utils, described in §4.1 of the spec):
deterministic over the ordered list of block hash-tree-roots, so the same blocks
from different peers collapse to the same attempt identity.  Modelled as the list
of roots itself, which has exactly that property. -/
def hashBlocks (blocks : List Block) : Root := blocks

/-- `byteArrayEquals` (src/util/bytes.ts): byte-wise comparison of two roots. -/
def byteArrayEquals (a b : Root) : Bool := a == b

/-- `PeerAction` of the network module (values used by range sync). -/
inductive PeerAction
  | fatal
  | lowToleranceError
  | midToleranceError
  | highToleranceError
deriving DecidableEq, Repr

/-- One `reportPeer(peer, action, actionName)` call recorded by the embedding. -/
structure PeerReport where
  peer : Peer
  action : PeerAction
  actionName : String
deriving DecidableEq, Repr

/-- `RangeSyncType` (sync/utils/remoteSyncType.ts). -/
inductive RangeSyncType
  | finalized
  | head
deriving DecidableEq, Repr

/-- `ChainTarget` (sync/range/chain.ts). -/
structure ChainTarget where
  slot : Slot
  root : Root
deriving DecidableEq, Repr

/-- `BatchOpts` (sync/range/batch.ts, visible through its callers). -/
structure BatchOpts where
  epochsPerBatch : Epoch
deriving DecidableEq, Repr

/-! ## Constants

`sync/constants.ts` is not among the sources; values are the defaults fixed by
§4.1/§6 of the spec (`EPOCHS_PER_BATCH = 2`, `BATCH_BUFFER_SIZE = 5`,
`BATCH_SLOT_OFFSET = 1`, `MAX_DOWNLOAD_ATTEMPTS = 5`, `MAX_PROCESSING_ATTEMPTS = 3`,
`MIN_FINALIZED_CHAIN_VALIDATED_EPOCHS = 10`, `PARALLEL_HEAD_CHAINS = 2`), and
`sync/asStateMachine/chain.ts` (in the sources) confirms `EPOCHS_PER_BATCH = 2`
and `BATCH_BUFFER_SIZE = 5`. -/

/-- Modelled from the spec: batch width in epochs (default 2). -/
def EPOCHS_PER_BATCH : Epoch := 2

/-- Modelled from the spec: maximum number of batches in the `Downloading` /
`AwaitingProcessing` buffer (default 5). -/
def BATCH_BUFFER_SIZE : Nat := 5

/-- Modelled from the spec: the first slot of each epoch belongs to the previous
batch, so requests start one slot after the epoch boundary. -/
def BATCH_SLOT_OFFSET : Slot := 1

/-- Modelled from the spec: download retries per batch (default 5). -/
def MAX_DOWNLOAD_ATTEMPTS : Nat := 5

/-- Modelled from the spec: processing retries per batch (default 3). -/
def MAX_PROCESSING_ATTEMPTS : Nat := 3

/-- Modelled from the spec: thrash guard for finalized-chain switching (default 10). -/
def MIN_FINALIZED_CHAIN_VALIDATED_EPOCHS : Int := 10

/-- Modelled from the spec: concurrent head-sync chains (default 2). -/
def PARALLEL_HEAD_CHAINS : Nat := 2

/-- Modelled from the spec: `computeStartSlotAtEpoch(config, epoch)` of the
beacon-state-transition package (not among the sources): one epoch is
`SLOTS_PER_EPOCH` slots (§3), so the first slot of `epoch` is
`epoch * SLOTS_PER_EPOCH`. -/
def computeStartSlotAtEpoch (slotsPerEpoch : Slot) (epoch : Epoch) : Slot :=
  epoch * slotsPerEpoch

/-! ## The older prototype `Batch` (sync/asStateMachine/batch.ts), in the sources -/

namespace ASM

/-- `Batch` of sync/asStateMachine/batch.ts.  `id` is the batch's `startEpoch`;
`request` is derived from it in the constructor and omitted here (it is a pure
function of `id`, `SLOTS_PER_EPOCH` and `numOfEpochs`). -/
structure Batch where
  id : Epoch
  state : BatchState
  failedProcessingAttempts : List Attempt
  failedDownloadAttempts : List Peer
deriving DecidableEq, Repr

/-- The `Batch` constructor: `AwaitingDownload`, no failed attempts. -/
def Batch.create (startEpoch : Epoch) : Batch :=
  { id := startEpoch
    state := .awaitingDownload
    failedProcessingAttempts := []
    failedDownloadAttempts := [] }

/-- The `request` computed by the `Batch` constructor:
`startSlot = computeStartSlotAtEpoch(config, startEpoch) + 1`,
`count = numOfEpochs * SLOTS_PER_EPOCH`, `step = 1`. -/
def Batch.request (slotsPerEpoch : Slot) (startEpoch : Epoch) (numOfEpochs : Epoch) :
    Slot × Slot × Slot :=
  (computeStartSlotAtEpoch slotsPerEpoch startEpoch + 1, numOfEpochs * slotsPerEpoch, 1)

/-- `Batch.getFailedPeers`: peers with a failed download or processing attempt. -/
def Batch.getFailedPeers (b : Batch) : List Peer :=
  b.failedDownloadAttempts ++ b.failedProcessingAttempts.map (fun a => a.peer)

/-- `WrongStateError` thrown by the `Batch` methods of the prototype. -/
inductive WrongStateError
  | wrongState (msg : String)
deriving DecidableEq, Repr

/-- `Batch.startDownloading`: `AwaitingDownload -> Downloading`. -/
def Batch.startDownloading (b : Batch) (peer : Peer) : Except WrongStateError Batch :=
  match b.state with
  | .awaitingDownload => .ok { b with state := .downloading peer [] }
  | _ => .error (.wrongState "Starting download for batch in wrong state")

/-- `Batch.downloadingSuccess`: `Downloading -> AwaitingProcessing`. -/
def Batch.downloadingSuccess (b : Batch) (blocks : List Block) : Except WrongStateError Batch :=
  match b.state with
  | .downloading peer _ => .ok { b with state := .awaitingProcessing peer blocks }
  | _ => .error (.wrongState "Download completed for batch in wrong state")

/-- `Batch.downloadingError` of the prototype: `Downloading -> AwaitingDownload`,
registering the failed peer.  NOTE: this prototype version has no retry cap. -/
def Batch.downloadingError (b : Batch) : Except WrongStateError Batch :=
  match b.state with
  | .downloading peer _ =>
    .ok { b with
            state := .awaitingDownload
            failedDownloadAttempts := b.failedDownloadAttempts ++ [peer] }
  | _ => .error (.wrongState "Download failed for batch in wrong state")

/-- `Batch.startProcessing`: `AwaitingProcessing -> Processing`, returning the
blocks; the attempt hash is `hashBlocks(blocks)`. -/
def Batch.startProcessing (b : Batch) : Except WrongStateError (List Block × Batch) :=
  match b.state with
  | .awaitingProcessing peer blocks =>
    .ok (blocks, { b with state := .processing { peer := peer, hash := hashBlocks blocks } })
  | _ => .error (.wrongState "Starting procesing batch in wrong state")

/-- `Batch.processingSuccess`: `Processing -> AwaitingValidation`. -/
def Batch.processingSuccess (b : Batch) : Except WrongStateError Batch :=
  match b.state with
  | .processing attempt => .ok { b with state := .awaitingValidation attempt }
  | _ => .error (.wrongState "Procesing completed for batch in wrong state")

/-- `Batch.processingError` of the prototype: `Processing -> AwaitingDownload`,
registering the attempt. -/
def Batch.processingError (b : Batch) : Except WrongStateError Batch :=
  match b.state with
  | .processing attempt =>
    .ok { b with
            state := .awaitingDownload
            failedProcessingAttempts := b.failedProcessingAttempts ++ [attempt] }
  | _ => .error (.wrongState "Procesing completed for batch in wrong state")

/-- `Batch.validationError` of the prototype: `AwaitingValidation -> AwaitingDownload`. -/
def Batch.validationError (b : Batch) : Except WrongStateError Batch :=
  match b.state with
  | .awaitingValidation attempt =>
    .ok { b with
            state := .awaitingDownload
            failedProcessingAttempts := b.failedProcessingAttempts ++ [attempt] }
  | _ => .error (.wrongState "Procesing completed for batch in wrong state")

end ASM

/-! ## The range-sync `Batch` (sync/range/batch.ts)

`sync/range/batch.ts` itself is not among the sources; only its callers are
(`sync/range/chain.ts`, which notes `// Throws after MAX_DOWNLOAD_ATTEMPTS` and
`// Throws after MAX_BATCH_PROCESSING_ATTEMPTS` at the call sites, and imports
`Batch, BatchError, BatchErrorCode` from it).  The methods below are modelled from
§4.1 of the spec: the transition table, with every method called in an unexpected
state failing fast with `WrongBatchState`, `downloadingError` capped by
`MAX_DOWNLOAD_ATTEMPTS` and `processingError` / `validationError` capped by
`MAX_PROCESSING_ATTEMPTS`. -/

/-- `BatchErrorCode` of sync/range/batch.ts (visible in the import list of
sync/range/chain.ts).  Modelled from the spec error taxonomy (§7). -/
inductive BatchErrorCode
  | wrongStatus
  | maxDownloadAttempts
  | maxProcessingAttempts
deriving DecidableEq, Repr

/-- Modelled from the spec: `Batch` of sync/range/batch.ts (§3 "Batch"): keyed by
`startEpoch`, owning its tagged state and the failed download / processing attempts. -/
structure Batch where
  startEpoch : Epoch
  state : BatchState
  failedProcessingAttempts : List Attempt
  failedDownloadAttempts : List Peer
deriving DecidableEq, Repr

/-- Modelled from the spec: `new Batch(startEpoch, config, opts)` starts in
`AwaitingDownload` with no recorded attempts. -/
def Batch.create (startEpoch : Epoch) : Batch :=
  { startEpoch := startEpoch
    state := .awaitingDownload
    failedProcessingAttempts := []
    failedDownloadAttempts := [] }

/-- Modelled from the spec: `Batch.getFailedPeers()` — peers from which this batch
has had a failed download or processing attempt. -/
def Batch.getFailedPeers (b : Batch) : List Peer :=
  b.failedDownloadAttempts ++ b.failedProcessingAttempts.map (fun a => a.peer)

/-- Modelled from the spec: `startDownloading(peer)`, `AwaitingDownload -> Downloading`. -/
def Batch.startDownloading (b : Batch) (peer : Peer) : Except BatchErrorCode Batch :=
  match b.state with
  | .awaitingDownload => .ok { b with state := .downloading peer [] }
  | _ => .error .wrongStatus

/-- Modelled from the spec: `downloadingSuccess(blocks)`, `Downloading -> AwaitingProcessing`. -/
def Batch.downloadingSuccess (b : Batch) (blocks : List Block) : Except BatchErrorCode Batch :=
  match b.state with
  | .downloading peer _ => .ok { b with state := .awaitingProcessing peer blocks }
  | _ => .error .wrongStatus

/-- Modelled from the spec: `downloadingError()`, `Downloading -> AwaitingDownload`;
appends the downloading peer to `failedDownloadAttempts` and fails with
`MaxDownloadAttempts` once their count reaches `MAX_DOWNLOAD_ATTEMPTS`. -/
def Batch.downloadingError (b : Batch) : Except BatchErrorCode Batch :=
  match b.state with
  | .downloading peer _ =>
    let failed := b.failedDownloadAttempts ++ [peer]
    if MAX_DOWNLOAD_ATTEMPTS ≤ failed.length then .error .maxDownloadAttempts
    else .ok { b with state := .awaitingDownload, failedDownloadAttempts := failed }
  | _ => .error .wrongStatus

/-- Modelled from the spec: `startProcessing()`, `AwaitingProcessing -> Processing`,
returning the blocks; `attempt.hash = hashOfBlocks(blocks)`. -/
def Batch.startProcessing (b : Batch) : Except BatchErrorCode (List Block × Batch) :=
  match b.state with
  | .awaitingProcessing peer blocks =>
    .ok (blocks, { b with state := .processing { peer := peer, hash := hashBlocks blocks } })
  | _ => .error .wrongStatus

/-- Modelled from the spec: `processingSuccess()`, `Processing -> AwaitingValidation`. -/
def Batch.processingSuccess (b : Batch) : Except BatchErrorCode Batch :=
  match b.state with
  | .processing attempt => .ok { b with state := .awaitingValidation attempt }
  | _ => .error .wrongStatus

/-- Modelled from the spec: `processingError()`, `Processing -> AwaitingDownload`;
appends the attempt to `failedProcessingAttempts` and fails with
`MaxProcessingAttempts` once their count reaches `MAX_PROCESSING_ATTEMPTS`. -/
def Batch.processingError (b : Batch) : Except BatchErrorCode Batch :=
  match b.state with
  | .processing attempt =>
    let failed := b.failedProcessingAttempts ++ [attempt]
    if MAX_PROCESSING_ATTEMPTS ≤ failed.length then .error .maxProcessingAttempts
    else .ok { b with state := .awaitingDownload, failedProcessingAttempts := failed }
  | _ => .error .wrongStatus

/-- Modelled from the spec: `validationError()`, `AwaitingValidation -> AwaitingDownload`;
same attempt registration and cap as `processingError`. -/
def Batch.validationError (b : Batch) : Except BatchErrorCode Batch :=
  match b.state with
  | .awaitingValidation attempt =>
    let failed := b.failedProcessingAttempts ++ [attempt]
    if MAX_PROCESSING_ATTEMPTS ≤ failed.length then .error .maxProcessingAttempts
    else .ok { b with state := .awaitingDownload, failedProcessingAttempts := failed }
  | _ => .error .wrongStatus

/-- Modelled from the spec: `validationSuccess()`, only from `AwaitingValidation`;
yields the successful attempt for peer scoring. -/
def Batch.validationSuccess (b : Batch) : Except BatchErrorCode Attempt :=
  match b.state with
  | .awaitingValidation attempt => .ok attempt
  | _ => .error .wrongStatus

/-! ## Chain-ordering helpers (sync/range/utils/updateChains.ts), in the sources -/

/-- The loop of `validateBatchesStatus(batches)` with its two counters
(`processing`, `preProcessing`), walking the batches in map order. -/
def validateBatchesStatusFrom : Nat → Nat → List Batch → Except String Unit
  | _, _, [] => .ok ()
  | processing, preProcessing, batch :: rest =>
    match batch.state.status with
    | .awaitingValidation =>
      if 0 < processing then .error "AwaitingValidation state found after Processing"
      else if 0 < preProcessing then .error "AwaitingValidation state found after PreProcessing"
      else validateBatchesStatusFrom processing preProcessing rest
    | .processing =>
      if 0 < preProcessing then .error "Processing state found after PreProcessing"
      else if 0 < processing then .error "More than one Processing state found"
      else validateBatchesStatusFrom (processing + 1) preProcessing rest
    | _ => validateBatchesStatusFrom processing (preProcessing + 1) rest

/-- `validateBatchesStatus(batches)`: validates that the statuses of the batches,
in ascending `startEpoch` order, follow
`[AwaitingValidation]* [Processing]? [AwaitingDownload,Downloading,AwaitingProcessing]*`,
throwing on the first deviation. -/
def validateBatchesStatus (batches : List Batch) : Except String Unit :=
  validateBatchesStatusFrom 0 0 batches

/-- `getNextBatchToProcess(batches)`: the first `AwaitingProcessing` batch after a
prefix of `AwaitingValidation` batches, or nothing. -/
def getNextBatchToProcess : List Batch → Option Batch
  | [] => none
  | batch :: rest =>
    match batch.state.status with
    | .awaitingValidation => getNextBatchToProcess rest
    | .awaitingProcessing => some batch
    | _ => none

/-- `toBeProcessedStartEpoch(batches, startEpoch, opts)`: max `startEpoch` among
`AwaitingValidation` batches plus `epochsPerBatch`, or the anchor if none. -/
def toBeProcessedStartEpoch (batches : List Batch) (startEpoch : Epoch) (opts : BatchOpts) :
    Epoch :=
  let startEpochs :=
    (batches.filter (fun b => b.state.status = BatchStatus.awaitingValidation)).map
      (fun b => b.startEpoch)
  match startEpochs.max? with
  | some m => m + opts.epochsPerBatch
  | none => startEpoch

/-- `toBeDownloadedStartEpoch(batches, startEpoch, opts)`: the last batch's
`startEpoch + epochsPerBatch`, or the anchor if there are no batches. -/
def toBeDownloadedStartEpoch (batches : List Batch) (startEpoch : Epoch) (opts : BatchOpts) :
    Epoch :=
  match batches.getLast? with
  | some lastBatch => lastBatch.startEpoch + opts.epochsPerBatch
  | none => startEpoch

/-! ## Sorting helpers

`src/util/sortBy.ts` and the `sortBy` of `sync/asStateMachine/utils` are not among
the sources; both are modelled as stable insertion sorts over a lexicographic pair
of keys, with the direction fixed by their call sites as described in the spec. -/

/-- Stable insertion of `x` into `l`, assumed sorted by `le`: `x` goes before the
first element it satisfies `le` against, so equal elements keep their order. -/
def insertSorted (le : α → α → Bool) (x : α) : List α → List α
  | [] => [x]
  | y :: ys => if le x y then x :: y :: ys else y :: insertSorted le x ys

/-- Stable insertion sort by the comparison `le`. -/
def sortWith (le : α → α → Bool) : List α → List α
  | [] => []
  | x :: xs => insertSorted le x (sortWith le xs)

/-- Lexicographic `≤` on pairs of naturals, as a Bool. -/
def lexLeb (a b : Nat × Nat) : Bool :=
  decide (a.1 < b.1) || (a.1 == b.1 && decide (a.2 ≤ b.2))

/-- Lexicographic `≥` on pairs of naturals, as a Bool. -/
def lexGeb (a b : Nat × Nat) : Bool :=
  decide (b.1 < a.1) || (a.1 == b.1 && decide (b.2 ≤ a.2))

/-- Modelled from the spec: `sortBy(arr, ...conditions)` of src/util/sortBy.ts (not
among the sources).  Its updateChains call site sorts chains "by peer count desc,
then by currently-syncing flag (prefer currently-syncing on tie)" (§4.5), i.e. a
stable descending lexicographic sort by the given keys. -/
def sortBy (l : List α) (k1 k2 : α → Nat) : List α :=
  sortWith (fun a b => lexGeb (k1 a, k2 a) (k1 b, k2 b)) l

/-- Modelled from the spec: the `sortBy` of sync/asStateMachine/utils (not among the
sources).  Its requestBatches call site sorts peers by "(1) no failed request
(2) less active requests" and picks the first (§4.2), i.e. a stable ascending
lexicographic sort by the given keys. -/
def sortByAsc (l : List α) (k1 k2 : α → Nat) : List α :=
  sortWith (fun a b => lexLeb (k1 a, k2 a) (k1 b, k2 b)) l

/-! ## `SyncChain` (sync/range/chain.ts), in the sources -/

/-- `SyncChainStatus` (sync/range/chain.ts). -/
inductive SyncChainStatus
  | stopped
  | syncing
  | synced
  | error
deriving DecidableEq, Repr

/-- The errors that can end the `sync()` loop of a `SyncChain`:
`ErrorAborted` from `remove()`; a `BatchError` bubbled out of
`downloadingError` / `processingError` / `validationError`; the plain `Error`
thrown by `validateBatchesStatus`. -/
inductive SyncError
  | aborted
  | batchFailure (code : BatchErrorCode)
  | invalidBatchOrder (msg : String)
deriving DecidableEq, Repr

/-- `SyncChainStartError` thrown by `startSyncing` on an ended chain, or a batch
error escaping `advanceChain` inside `startSyncing`. -/
inductive StartError
  | startAfterEnded
  | batchFailure (code : BatchErrorCode)
deriving DecidableEq, Repr

/-- The state of a `SyncChain` (sync/range/chain.ts).  `batches` is the
`Map<Epoch, Batch>` as an association list in insertion order (ascending
`startEpoch`, since keys are only ever appended past the last batch); `peerset`
holds the peer ids of the `PeerMap`; `opts` is `SyncChainOpts`
(`epochsPerBatch`, defaulted to `EPOCHS_PER_BATCH`); `slotsPerEpoch` stands for
`config.params.SLOTS_PER_EPOCH`. -/
structure SyncChain where
  startEpoch : Epoch
  status : SyncChainStatus
  validatedEpochs : Int
  batches : List (Epoch × Batch)
  peerset : List Peer
  target : Option ChainTarget
  syncType : RangeSyncType
  opts : BatchOpts
  slotsPerEpoch : Slot
deriving DecidableEq, Repr

/-- The `peers` getter: `peerset.size`. -/
def SyncChain.peers (c : SyncChain) : Nat := c.peerset.length

/-- The `isSyncing` getter. -/
def SyncChain.isSyncing (c : SyncChain) : Bool :=
  match c.status with
  | .syncing => true
  | _ => false

/-- The `isRemovable` getter: `status === Error || status === Synced`. -/
def SyncChain.isRemovable (c : SyncChain) : Bool :=
  match c.status with
  | .error => true
  | .synced => true
  | _ => false

/-- `stopSyncing()`: unconditionally set the status to `Stopped`. -/
def SyncChain.stopSyncing (c : SyncChain) : SyncChain :=
  { c with status := .stopped }

/-- The report loop inside `advanceChain`: for every failed processing attempt
whose hash differs from the winning attempt's, report the peer —
`MidToleranceError` "SyncChainInvalidBatchSelf" if it is the winner correcting
itself, else `LowToleranceError` "SyncChainInvalidBatchOther". -/
def reportBadAttempts (attemptOk : Attempt) : List Attempt → List PeerReport
  | [] => []
  | attempt :: rest =>
    if byteArrayEquals attempt.hash attemptOk.hash then reportBadAttempts attemptOk rest
    else if attemptOk.peer = attempt.peer then
      { peer := attempt.peer
        action := .midToleranceError
        actionName := "SyncChainInvalidBatchSelf" } :: reportBadAttempts attemptOk rest
    else
      { peer := attempt.peer
        action := .lowToleranceError
        actionName := "SyncChainInvalidBatchOther" } :: reportBadAttempts attemptOk rest

/-- The outcome of the batch-removal loop of `advanceChain`: the remaining
batches, the increment of `validatedEpochs`, the reports emitted, and the
`BatchError` that aborted the loop, if any. -/
structure AdvanceLoopResult where
  batches : List (Epoch × Batch)
  validatedDelta : Int
  reports : List PeerReport
  err : Option BatchErrorCode
deriving DecidableEq, Repr

/-- The `for (const [batchKey, batch] of this.batches.entries())` loop of
`advanceChain`: every batch with `startEpoch < newStartEpoch` is deleted and
`validatedEpochs` incremented by `EPOCHS_PER_BATCH` before `validationSuccess()`
is called on it (unconditionally); if `validationSuccess()` throws, the loop
aborts there and the exception propagates, keeping the mutations made so far. -/
def advanceChainLoop (newStartEpoch : Epoch) :
    List (Epoch × Batch) → AdvanceLoopResult
  | [] => { batches := [], validatedDelta := 0, reports := [], err := none }
  | (batchKey, batch) :: rest =>
    if batch.startEpoch < newStartEpoch then
      match batch.validationSuccess with
      | .error e =>
        { batches := rest, validatedDelta := EPOCHS_PER_BATCH, reports := [], err := some e }
      | .ok attemptOk =>
        let tail := advanceChainLoop newStartEpoch rest
        { batches := tail.batches
          validatedDelta := EPOCHS_PER_BATCH + tail.validatedDelta
          reports := reportBadAttempts attemptOk batch.failedProcessingAttempts ++ tail.reports
          err := tail.err }
    else
      let tail := advanceChainLoop newStartEpoch rest
      { tail with batches := (batchKey, batch) :: tail.batches }

/-- The outcome of a `SyncChain` operation: the mutated chain, the `reportPeer`
calls it made, and the exception it threw, if any. -/
structure AdvanceResult where
  chain : SyncChain
  reports : List PeerReport
  err : Option BatchErrorCode
deriving DecidableEq, Repr

/-- `advanceChain(newStartEpoch)`: no-op unless `newStartEpoch > startEpoch`;
otherwise drop every batch previous to `newStartEpoch` (scoring their peers) and
set `startEpoch = newStartEpoch` — unless `validationSuccess()` threw, in which
case `startEpoch` is left untouched and the exception propagates. -/
def SyncChain.advanceChain (c : SyncChain) (newStartEpoch : Epoch) : AdvanceResult :=
  if newStartEpoch ≤ c.startEpoch then { chain := c, reports := [], err := none }
  else
    let r := advanceChainLoop newStartEpoch c.batches
    match r.err with
    | some e =>
      { chain := { c with batches := r.batches
                          validatedEpochs := c.validatedEpochs + r.validatedDelta }
        reports := r.reports
        err := some e }
    | none =>
      { chain := { c with batches := r.batches
                          validatedEpochs := c.validatedEpochs + r.validatedDelta
                          startEpoch := newStartEpoch }
        reports := r.reports
        err := none }

/-- The outcome of `startSyncing`. -/
structure StartSyncingResult where
  chain : SyncChain
  reports : List PeerReport
  err : Option StartError
deriving DecidableEq, Repr

/-- `startSyncing(localFinalizedEpoch)`: no-op when already `Syncing`; throws
`SyncChainStartError` when `Synced` or `Error`; from `Stopped`, set the status
to `Syncing` and advance the chain to the aligned epoch
`startEpoch + floor((localFinalizedEpoch - startEpoch) / EPOCHS_PER_BATCH) * EPOCHS_PER_BATCH`
(the source uses the constant `EPOCHS_PER_BATCH` here, not `opts.epochsPerBatch`).
The trailing `triggerBatchDownloader()` / `triggerBatchProcessor()` calls only
schedule download and processing work; they touch neither `status` nor
`startEpoch` nor `validatedEpochs` and are not modelled. -/
def SyncChain.startSyncing (c : SyncChain) (localFinalizedEpoch : Epoch) :
    StartSyncingResult :=
  match c.status with
  | .syncing => { chain := c, reports := [], err := none }
  | .error => { chain := c, reports := [], err := some .startAfterEnded }
  | .synced => { chain := c, reports := [], err := some .startAfterEnded }
  | .stopped =>
    let c1 : SyncChain := { c with status := .syncing }
    let localFinalizedEpochAligned : Epoch :=
      c1.startEpoch +
        ((localFinalizedEpoch - c1.startEpoch).fdiv EPOCHS_PER_BATCH) * EPOCHS_PER_BATCH
    let r := c1.advanceChain localFinalizedEpochAligned
    { chain := r.chain, reports := r.reports, err := r.err.map .batchFailure }

/-- The outcome of the `sync()` loop ending: the chain, the reports of the catch
handler, and the single argument passed to `onEnd`. -/
structure SyncEndResult where
  chain : SyncChain
  reports : List PeerReport
  onEndArg : Option SyncError
deriving DecidableEq, Repr

/-- The catch handler of `SyncChain.sync()` together with the constructor's
`this.sync().then(() => fns.onEnd(), (e) => fns.onEnd(e))` wiring: an
`ErrorAborted` is swallowed (`onEnd()` with no error, status untouched); any
other error sets the status to `Error`, reports the whole peerset with
`LowToleranceError` "SyncChainMaxProcessingAttempts" when the error is a
`BatchError` with code `MAX_PROCESSING_ATTEMPTS`, and rethrows, so `onEnd`
receives the error.  A promise settles exactly once, so `onEnd` runs exactly
once per chain. -/
def SyncChain.onSyncLoopError (c : SyncChain) (e : SyncError) : SyncEndResult :=
  match e with
  | .aborted => { chain := c, reports := [], onEndArg := none }
  | .batchFailure .maxProcessingAttempts =>
    { chain := { c with status := .error }
      reports := c.peerset.map (fun peer =>
        { peer := peer
          action := .lowToleranceError
          actionName := "SyncChainMaxProcessingAttempts" })
      onEndArg := some (.batchFailure .maxProcessingAttempts) }
  | e => { chain := { c with status := .error }, reports := [], onEndArg := some e }

/-- Whether a batch occupies the download buffer: the
`batch.state.status === BatchStatus.Downloading || batch.state.status === BatchStatus.AwaitingProcessing`
filter of `includeNextBatch`. -/
def Batch.inDownloadBuffer (b : Batch) : Bool :=
  match b.state with
  | .downloading _ _ => true
  | .awaitingProcessing _ _ => true
  | _ => false

/-- The outcome of `includeNextBatch()`. -/
structure IncludeNextBatchResult where
  batch : Option Batch
  chain : SyncChain
deriving DecidableEq, Repr

/-- `includeNextBatch()`: return nothing once more than `BATCH_BUFFER_SIZE`
batches are `Downloading` / `AwaitingProcessing`, or the next batch would start
past the target slot, or a batch already exists at the next `startEpoch`;
otherwise create the batch, insert it (at the end of the map) and return it. -/
def SyncChain.includeNextBatch (c : SyncChain) : IncludeNextBatchResult :=
  let batches := c.batches.map Prod.snd
  let batchesInBuffer := batches.filter Batch.inDownloadBuffer
  if BATCH_BUFFER_SIZE < batchesInBuffer.length then { batch := none, chain := c }
  else
    let startEpoch := toBeDownloadedStartEpoch batches c.startEpoch c.opts
    let toBeDownloadedSlot := computeStartSlotAtEpoch c.slotsPerEpoch startEpoch + BATCH_SLOT_OFFSET
    if (match c.target with
        | some target => decide (target.slot < toBeDownloadedSlot)
        | none => false) then
      { batch := none, chain := c }
    else if c.batches.any (fun kb => kb.1 = startEpoch) then
      { batch := none, chain := c }
    else
      let batch := Batch.create startEpoch
      { batch := some batch, chain := { c with batches := c.batches ++ [(startEpoch, batch)] } }

/-! ## Chain prioritization (sync/range/utils/updateChains.ts), in the sources -/

/-- `updateFinalizedChains(finalizedChains)`: pick the finalized chain with most
peers (preferring the currently-syncing one on ties); start it if no finalized
chain is syncing; switch away from the current one only if the pick is a
different chain with strictly more peers and the current chain has validated
more than `MIN_FINALIZED_CHAIN_VALIDATED_EPOCHS` epochs; otherwise keep the
current chain.  Returns `none` when there is no finalized chain at all. -/
def updateFinalizedChains (finalizedChains : List SyncChain) :
    Option (List SyncChain × List SyncChain) :=
  let preferredSyncChains :=
    sortBy finalizedChains (fun syncChain => syncChain.peers)
      (fun syncChain => if syncChain.isSyncing then 1 else 0)
  match preferredSyncChains.head? with
  | none => none
  | some newSyncChain =>
    match finalizedChains.find? (fun syncChain => syncChain.isSyncing) with
    | none => some ([newSyncChain], [])
    | some currentSyncChain =>
      if newSyncChain ≠ currentSyncChain ∧
          currentSyncChain.peers < newSyncChain.peers ∧
          MIN_FINALIZED_CHAIN_VALIDATED_EPOCHS < currentSyncChain.validatedEpochs then
        some ([newSyncChain], [currentSyncChain])
      else
        some ([], [])

/-- `updateHeadChains(headChains)`: sort the same way and start the top
`PARALLEL_HEAD_CHAINS` chains, stopping the rest. -/
def updateHeadChains (headChains : List SyncChain) : List SyncChain × List SyncChain :=
  let preferredSyncChains :=
    sortBy headChains (fun syncChain => syncChain.peers)
      (fun syncChain => if syncChain.isSyncing then 1 else 0)
  (preferredSyncChains.take PARALLEL_HEAD_CHAINS, preferredSyncChains.drop PARALLEL_HEAD_CHAINS)

/-- `updateChains(chains)`: split by `syncType`; the finalized chains take
priority, head chains are only considered when there is no finalized chain. -/
def updateChains (chains : List SyncChain) : List SyncChain × List SyncChain :=
  let finalizedChains := chains.filter (fun c => c.syncType = RangeSyncType.finalized)
  let headChains := chains.filter (fun c => c.syncType = RangeSyncType.head)
  match updateFinalizedChains finalizedChains with
  | some r => r
  | none => updateHeadChains headChains

/-! ## Peer balancing -/

namespace ASM

/-- `SyncingChain.getActiveRequestsByPeer` (sync/asStateMachine/chain.ts): the
number of `Downloading` batches assigned to each peer (`?? 0` for absent keys). -/
def getActiveRequestsByPeer (batches : List Batch) (peer : Peer) : Nat :=
  (batches.filter (fun b =>
    match b.state with
    | .downloading p _ => decide (p = peer)
    | _ => false)).length

/-- The retry-peer choice of `SyncingChain.requestBatches`
(sync/asStateMachine/chain.ts): sort the peers by (1) whether
`batch.getFailedPeers()` contains them, (2) their active-request count, and
take the first — failed peers are deprioritized, not excluded. -/
def bestRetryPeer (peers : List Peer) (batches : List Batch) (batch : Batch) :
    Option Peer :=
  let failedPeers := batch.getFailedPeers
  (sortByAsc peers
    (fun peer => if peer ∈ failedPeers then 1 else 0)
    (fun peer => getActiveRequestsByPeer batches peer)).head?

end ASM

/-- The active-download count of a peer over the chain's batches (the
`activeRequestsByPeer` of the range peer balancer). -/
def activeDownloadCount (batches : List Batch) (peer : Peer) : Nat :=
  (batches.filter (fun b =>
    match b.state with
    | .downloading p _ => decide (p = peer)
    | _ => false)).length

/-- Modelled from the spec: `ChainPeersBalancer.bestPeerToRetryBatch` of
sync/range/utils/peerBalancer.ts (not among the sources; `sync/range/chain.ts`
imports `ChainPeersBalancer` from `./utils`).  §4.2: "from peers, exclude those
in `batch.getFailedPeers()`; among remaining, pick the one with fewest
currently-active downloads; if tie, pick the one with fewest total active
downloads across batches; if still tie, deterministic by peer id".  The balancer
is built per chain from one batch set, so the two active-download counts
coincide here and the selection sorts the non-failed peers ascending by
(active downloads, peer id). -/
def bestPeerToRetryBatch (peers : List Peer) (batches : List Batch) (batch : Batch) :
    Option Peer :=
  let failedPeers := batch.getFailedPeers
  let candidates := peers.filter (fun peer => peer ∉ failedPeers)
  (sortByAsc candidates
    (fun peer => activeDownloadCount batches peer)
    (fun peer => peer)).head?

/-! ## Spec-side predicates (the claims' vocabulary) -/

/-- A status of the `(AwaitingDownload | Downloading | AwaitingProcessing)`
alternative of the batch-status pattern. -/
def isPreProcessingStatus (s : BatchStatus) : Prop :=
  s = BatchStatus.awaitingDownload ∨ s = BatchStatus.downloading ∨
    s = BatchStatus.awaitingProcessing

instance (s : BatchStatus) : Decidable (isPreProcessingStatus s) := by
  unfold isPreProcessingStatus
  infer_instance

/-- The regular pattern of P1 / §3:
`AwaitingValidation* Processing? (AwaitingDownload | Downloading | AwaitingProcessing)*`,
read as the existence of a three-part decomposition. -/
def matchesStatusRegex (statuses : List BatchStatus) : Prop :=
  ∃ avPart pPart prePart,
    statuses = avPart ++ pPart ++ prePart ∧
    (∀ s ∈ avPart, s = BatchStatus.awaitingValidation) ∧
    (pPart = [] ∨ pPart = [BatchStatus.processing]) ∧
    (∀ s ∈ prePart, isPreProcessingStatus s)

/-- The report the claims expect for one failed processing attempt, given the
winning attempt: nothing when the hashes agree, a `MidToleranceError`
"SyncChainInvalidBatchSelf" when the same peer corrected itself, a
`LowToleranceError` "SyncChainInvalidBatchOther" otherwise. -/
def expectedReport (attemptOk : Attempt) (attempt : Attempt) : Option PeerReport :=
  if attempt.hash = attemptOk.hash then none
  else if attempt.peer = attemptOk.peer then
    some { peer := attempt.peer
           action := .midToleranceError
           actionName := "SyncChainInvalidBatchSelf" }
  else
    some { peer := attempt.peer
           action := .lowToleranceError
           actionName := "SyncChainInvalidBatchOther" }

/-! ## Concrete states for the boundary scenarios -/

/-- A batch at `startEpoch` in the given state, with no recorded attempts. -/
def mkBatch (startEpoch : Epoch) (st : BatchState) : Batch :=
  { startEpoch := startEpoch
    state := st
    failedProcessingAttempts := []
    failedDownloadAttempts := [] }

/-- A far-away target, so the target-slot guard of `includeNextBatch` never fires
in the buffer scenarios. -/
def farTarget : ChainTarget := { slot := 1000, root := [0] }

/-- Scenario 2 of §8 (`epochs_per_batch = 2`, `SLOTS_PER_EPOCH = 32`): the
processor is held on batch 0 (`Processing`) and the five batches at epochs
2..10 are fully downloaded (`AwaitingProcessing`). -/
def chainHeldFive : SyncChain :=
  { startEpoch := 0
    status := .syncing
    validatedEpochs := 0
    batches :=
      [(0, mkBatch 0 (.processing { peer := 1, hash := [7] })),
       (2, mkBatch 2 (.awaitingProcessing 1 [5])),
       (4, mkBatch 4 (.awaitingProcessing 1 [5])),
       (6, mkBatch 6 (.awaitingProcessing 1 [5])),
       (8, mkBatch 8 (.awaitingProcessing 1 [5])),
       (10, mkBatch 10 (.awaitingProcessing 1 [5]))]
    peerset := [1]
    target := some farTarget
    syncType := .finalized
    opts := { epochsPerBatch := 2 }
    slotsPerEpoch := 32 }

/-- The same scenario one step later: the batch at epoch 12 has also been created
and downloaded, so six batches sit in the buffer. -/
def chainHeldSix : SyncChain :=
  { chainHeldFive with
      batches := chainHeldFive.batches ++ [(12, mkBatch 12 (.awaitingProcessing 1 [5]))] }

/-- A chain holding one batch that is still `Downloading` below an advancement
boundary (reachable from a stopped chain restarted with a larger
`localFinalizedEpoch`). -/
def chainDownloadingBelow : SyncChain :=
  { startEpoch := 0
    status := .syncing
    validatedEpochs := 0
    batches := [(0, mkBatch 0 (.downloading 3 []))]
    peerset := [3]
    target := none
    syncType := .finalized
    opts := { epochsPerBatch := 2 }
    slotsPerEpoch := 32 }

/-- A chain with one `AwaitingValidation` batch below the boundary (the normal
`advanceChain` situation). -/
def chainValidatedBelow : SyncChain :=
  { startEpoch := 0
    status := .syncing
    validatedEpochs := 4
    batches := [(0, mkBatch 0 (.awaitingValidation { peer := 3, hash := [9] }))]
    peerset := [3]
    target := none
    syncType := .finalized
    opts := { epochsPerBatch := 2 }
    slotsPerEpoch := 32 }

/-- Another chain stuck the same way, used by the `validationSuccess` claim: the
batch below the boundary is still `Downloading`. -/
def chainUnvalidatedBelow : SyncChain :=
  { startEpoch := 2
    status := .syncing
    validatedEpochs := 2
    batches := [(2, mkBatch 2 (.downloading 5 []))]
    peerset := [5]
    target := none
    syncType := .finalized
    opts := { epochsPerBatch := 2 }
    slotsPerEpoch := 32 }

/-- The winning attempt of the reporting scenario (§8 scenarios 3 and 4). -/
def winningAttempt : Attempt := { peer := 1, hash := [10] }

/-- A batch awaiting validation whose failed processing attempts cover the three
reporting cases: same peer with a different hash, another peer with a different
hash, and another peer with the winning hash. -/
def scoredBatch : Batch :=
  { startEpoch := 0
    state := .awaitingValidation winningAttempt
    failedProcessingAttempts :=
      [{ peer := 1, hash := [11] }, { peer := 2, hash := [12] }, { peer := 3, hash := [10] }]
    failedDownloadAttempts := [] }

/-- A chain about to drop `scoredBatch` by advancing past it. -/
def chainScored : SyncChain :=
  { startEpoch := 0
    status := .syncing
    validatedEpochs := 0
    batches := [(0, scoredBatch)]
    peerset := [1, 2, 3]
    target := none
    syncType := .finalized
    opts := { epochsPerBatch := 2 }
    slotsPerEpoch := 32 }

/-- A downloading batch that has already failed four downloads: the next
`downloadingError()` is the fifth. -/
def batchFourFailures : Batch :=
  { startEpoch := 0
    state := .downloading 9 []
    failedProcessingAttempts := []
    failedDownloadAttempts := [5, 6, 7, 8] }

/-- A downloading batch with a clean download history. -/
def batchFreshDownload : Batch :=
  { startEpoch := 0
    state := .downloading 9 []
    failedProcessingAttempts := []
    failedDownloadAttempts := [] }

/-- The chain owning the failing download, for the `MaxDownloadAttempts` claim. -/
def chainDownloadOwner : SyncChain :=
  { startEpoch := 0
    status := .syncing
    validatedEpochs := 0
    batches := [(0, batchFourFailures)]
    peerset := [9]
    target := some farTarget
    syncType := .finalized
    opts := { epochsPerBatch := 2 }
    slotsPerEpoch := 32 }

/-- Scenario 5 of §8: a batch in `Processing` whose third processing failure is
about to be recorded. -/
def batchThirdProcessingFailure : Batch :=
  { startEpoch := 4
    state := .processing { peer := 2, hash := [1] }
    failedProcessingAttempts := [{ peer := 2, hash := [2] }, { peer := 3, hash := [3] }]
    failedDownloadAttempts := [] }

/-- The chain owning `batchThirdProcessingFailure`, with three peers to report. -/
def chainPeerTrio : SyncChain :=
  { startEpoch := 0
    status := .syncing
    validatedEpochs := 0
    batches := [(4, batchThirdProcessingFailure)]
    peerset := [4, 5, 6]
    target := some farTarget
    syncType := .finalized
    opts := { epochsPerBatch := 2 }
    slotsPerEpoch := 32 }

/-- A stopped chain configured with `epochsPerBatch = 3`, exposing that
`startSyncing` aligns with the constant `EPOCHS_PER_BATCH` instead. -/
def chainOptsThree : SyncChain :=
  { startEpoch := 0
    status := .stopped
    validatedEpochs := 0
    batches := []
    peerset := []
    target := none
    syncType := .finalized
    opts := { epochsPerBatch := 3 }
    slotsPerEpoch := 32 }

/-- A stopped chain with the default options, for the `startSyncing` witness. -/
def chainStoppedDefault : SyncChain :=
  { startEpoch := 0
    status := .stopped
    validatedEpochs := 0
    batches := []
    peerset := []
    target := none
    syncType := .finalized
    opts := { epochsPerBatch := 2 }
    slotsPerEpoch := 32 }

/-- A prototype batch whose only peer has already failed its download. -/
def asmBatchAllFailed : ASM.Batch :=
  { id := 0
    state := .awaitingDownload
    failedProcessingAttempts := []
    failedDownloadAttempts := [7] }

/-- A range batch whose peer 7 has already failed, while peer 3 is clean. -/
def batchPeerSevenFailed : Batch :=
  { startEpoch := 0
    state := .awaitingDownload
    failedProcessingAttempts := []
    failedDownloadAttempts := [7] }

/-- A finalized chain with three peers that is not yet syncing. -/
def chainThreePeers : SyncChain :=
  { startEpoch := 0
    status := .stopped
    validatedEpochs := 0
    batches := []
    peerset := [1, 2, 3]
    target := none
    syncType := .finalized
    opts := { epochsPerBatch := 2 }
    slotsPerEpoch := 32 }

/-- A currently-syncing finalized chain with a single peer and more than
`MIN_FINALIZED_CHAIN_VALIDATED_EPOCHS` validated epochs. -/
def chainOnePeerSyncing : SyncChain :=
  { startEpoch := 0
    status := .syncing
    validatedEpochs := 11
    batches := []
    peerset := [4]
    target := none
    syncType := .finalized
    opts := { epochsPerBatch := 2 }
    slotsPerEpoch := 32 }

/-- A chain that has reached `Synced`, for the terminal-status claim. -/
def chainSyncedDone : SyncChain :=
  { startEpoch := 20
    status := .synced
    validatedEpochs := 20
    batches := []
    peerset := [8]
    target := none
    syncType := .head
    opts := { epochsPerBatch := 2 }
    slotsPerEpoch := 32 }

/-! ## Lemmas about the sorting helpers -/

theorem mem_insertSorted {le : α → α → Bool} {x z : α} :
    ∀ {l : List α}, z ∈ insertSorted le x l ↔ z = x ∨ z ∈ l := by
  intro l
  induction l with
  | nil => simp [insertSorted]
  | cons y ys ih =>
    by_cases hxy : le x y = true
    · simp [insertSorted, hxy]
    · simp only [insertSorted, if_neg hxy, List.mem_cons, ih]
      tauto

theorem mem_sortWith {le : α → α → Bool} {z : α} :
    ∀ {l : List α}, z ∈ sortWith le l ↔ z ∈ l := by
  intro l
  induction l with
  | nil => simp [sortWith]
  | cons x xs ih => simp [sortWith, mem_insertSorted, ih]

theorem sortWith_head_le {le : α → α → Bool}
    (htot : ∀ a b, le a b = true ∨ le b a = true)
    (htrans : ∀ a b c, le a b = true → le b c = true → le a c = true) :
    ∀ {l : List α} {h : α} {t : List α},
      sortWith le l = h :: t → ∀ y ∈ l, le h y = true := by
  have hrefl : ∀ a, le a a = true := fun a => (htot a a).elim id id
  intro l
  induction l with
  | nil => intro h t heq; simp [sortWith] at heq
  | cons x xs ih =>
    intro h t heq y hy
    rw [sortWith] at heq
    rcases hxs : sortWith le xs with _ | ⟨h', t'⟩
    · rw [hxs] at heq
      simp only [insertSorted] at heq
      obtain ⟨hhx, -⟩ := List.cons.inj heq
      rcases List.mem_cons.mp hy with hyx | hy
      · rw [← hhx, hyx]; exact hrefl _
      · exfalso
        have : y ∈ sortWith le xs := mem_sortWith.mpr hy
        rw [hxs] at this
        simp at this
    · rw [hxs] at heq
      have hmax : ∀ z ∈ xs, le h' z = true := ih hxs
      rw [insertSorted] at heq
      by_cases hxh : le x h' = true
      · rw [if_pos hxh] at heq
        obtain ⟨hhx, -⟩ := List.cons.inj heq
        rcases List.mem_cons.mp hy with hyx | hy
        · rw [← hhx, hyx]; exact hrefl _
        · rw [← hhx]; exact htrans x h' y hxh (hmax y hy)
      · rw [if_neg hxh] at heq
        obtain ⟨hhx, -⟩ := List.cons.inj heq
        rcases List.mem_cons.mp hy with hyx | hy
        · rw [← hhx, hyx]
          rcases htot x h' with hh | hh
          · exact absurd hh hxh
          · exact hh
        · rw [← hhx]; exact hmax y hy

theorem sortWith_ne_nil {le : α → α → Bool} {x : α} {xs : List α} :
    sortWith le (x :: xs) ≠ [] := by
  intro heq
  have : x ∈ sortWith le (x :: xs) := mem_sortWith.mpr (List.mem_cons_self x xs)
  rw [heq] at this
  simp at this

theorem lexLeb_total (a b : Nat × Nat) : lexLeb a b = true ∨ lexLeb b a = true := by
  simp only [lexLeb, Bool.or_eq_true, Bool.and_eq_true, decide_eq_true_eq, beq_iff_eq]
  omega

theorem lexLeb_trans (a b c : Nat × Nat) (hab : lexLeb a b = true) (hbc : lexLeb b c = true) :
    lexLeb a c = true := by
  simp only [lexLeb, Bool.or_eq_true, Bool.and_eq_true, decide_eq_true_eq, beq_iff_eq] at *
  omega

theorem lexGeb_total (a b : Nat × Nat) : lexGeb a b = true ∨ lexGeb b a = true := by
  simp only [lexGeb, Bool.or_eq_true, Bool.and_eq_true, decide_eq_true_eq, beq_iff_eq]
  omega

theorem lexGeb_trans (a b c : Nat × Nat) (hab : lexGeb a b = true) (hbc : lexGeb b c = true) :
    lexGeb a c = true := by
  simp only [lexGeb, Bool.or_eq_true, Bool.and_eq_true, decide_eq_true_eq, beq_iff_eq] at *
  omega

/-- The head of `sortBy` dominates every list element in the descending
lexicographic order of its two keys. -/
theorem sortBy_head_ge {l : List α} {k1 k2 : α → Nat} {h : α} {t : List α}
    (heq : sortBy l k1 k2 = h :: t) :
    ∀ y ∈ l, lexGeb (k1 h, k2 h) (k1 y, k2 y) = true :=
  sortWith_head_le (fun a b => lexGeb_total (k1 a, k2 a) (k1 b, k2 b))
    (fun a b c => lexGeb_trans (k1 a, k2 a) (k1 b, k2 b) (k1 c, k2 c)) heq

/-- The head of `sortByAsc` is below every list element in the ascending
lexicographic order of its two keys. -/
theorem sortByAsc_head_le {l : List α} {k1 k2 : α → Nat} {h : α} {t : List α}
    (heq : sortByAsc l k1 k2 = h :: t) :
    ∀ y ∈ l, lexLeb (k1 h, k2 h) (k1 y, k2 y) = true :=
  sortWith_head_le (fun a b => lexLeb_total (k1 a, k2 a) (k1 b, k2 b))
    (fun a b c => lexLeb_trans (k1 a, k2 a) (k1 b, k2 b) (k1 c, k2 c)) heq

theorem mem_sortBy {l : List α} {k1 k2 : α → Nat} {z : α} :
    z ∈ sortBy l k1 k2 ↔ z ∈ l := mem_sortWith

theorem mem_sortByAsc {l : List α} {k1 k2 : α → Nat} {z : α} :
    z ∈ sortByAsc l k1 k2 ↔ z ∈ l := mem_sortWith

/-! ## Lemmas about `validateBatchesStatus` -/

theorem validateFrom_preProcessing_pos :
    ∀ (l : List Batch) (p q : Nat), 0 < q →
      (validateBatchesStatusFrom p q l = .ok () ↔
        ∀ b ∈ l, isPreProcessingStatus b.state.status) := by
  intro l
  induction l with
  | nil => intro p q _; simp [validateBatchesStatusFrom]
  | cons b rest ih =>
    intro p q hq
    rcases hs : b.state.status with _ | _ | _ | _ | _
    · -- awaitingDownload
      rw [show validateBatchesStatusFrom p q (b :: rest) =
            validateBatchesStatusFrom p (q + 1) rest by
        simp [validateBatchesStatusFrom, hs]]
      rw [ih p (q + 1) (Nat.succ_pos q)]
      simp [hs, isPreProcessingStatus]
    · -- downloading
      rw [show validateBatchesStatusFrom p q (b :: rest) =
            validateBatchesStatusFrom p (q + 1) rest by
        simp [validateBatchesStatusFrom, hs]]
      rw [ih p (q + 1) (Nat.succ_pos q)]
      simp [hs, isPreProcessingStatus]
    · -- awaitingProcessing
      rw [show validateBatchesStatusFrom p q (b :: rest) =
            validateBatchesStatusFrom p (q + 1) rest by
        simp [validateBatchesStatusFrom, hs]]
      rw [ih p (q + 1) (Nat.succ_pos q)]
      simp [hs, isPreProcessingStatus]
    · -- processing: rejected because preProcessing > 0
      constructor
      · intro hok
        exfalso
        simp [validateBatchesStatusFrom, hs, hq] at hok
      · intro hall
        exfalso
        have := hall b (List.mem_cons_self b rest)
        rw [hs] at this
        simp [isPreProcessingStatus] at this
    · -- awaitingValidation: rejected because a counter is positive
      constructor
      · intro hok
        exfalso
        rcases Nat.eq_zero_or_pos p with hp | hp
        · subst hp; simp [validateBatchesStatusFrom, hs, hq] at hok
        · simp [validateBatchesStatusFrom, hs, hp] at hok
      · intro hall
        exfalso
        have := hall b (List.mem_cons_self b rest)
        rw [hs] at this
        simp [isPreProcessingStatus] at this

theorem validateFrom_processing_one :
    ∀ (l : List Batch),
      validateBatchesStatusFrom 1 0 l = .ok () ↔
        ∀ b ∈ l, isPreProcessingStatus b.state.status := by
  intro l
  cases l with
  | nil => simp [validateBatchesStatusFrom]
  | cons b rest =>
    rcases hs : b.state.status with _ | _ | _ | _ | _
    · rw [show validateBatchesStatusFrom 1 0 (b :: rest) =
            validateBatchesStatusFrom 1 1 rest by
        simp [validateBatchesStatusFrom, hs]]
      rw [validateFrom_preProcessing_pos rest 1 1 Nat.one_pos]
      simp [hs, isPreProcessingStatus]
    · rw [show validateBatchesStatusFrom 1 0 (b :: rest) =
            validateBatchesStatusFrom 1 1 rest by
        simp [validateBatchesStatusFrom, hs]]
      rw [validateFrom_preProcessing_pos rest 1 1 Nat.one_pos]
      simp [hs, isPreProcessingStatus]
    · rw [show validateBatchesStatusFrom 1 0 (b :: rest) =
            validateBatchesStatusFrom 1 1 rest by
        simp [validateBatchesStatusFrom, hs]]
      rw [validateFrom_preProcessing_pos rest 1 1 Nat.one_pos]
      simp [hs, isPreProcessingStatus]
    · constructor
      · intro hok; exfalso; simp [validateBatchesStatusFrom, hs] at hok
      · intro hall
        exfalso
        have := hall b (List.mem_cons_self b rest)
        rw [hs] at this
        simp [isPreProcessingStatus] at this
    · constructor
      · intro hok; exfalso; simp [validateBatchesStatusFrom, hs] at hok
      · intro hall
        exfalso
        have := hall b (List.mem_cons_self b rest)
        rw [hs] at this
        simp [isPreProcessingStatus] at this

theorem matchesStatusRegex_nil : matchesStatusRegex [] :=
  ⟨[], [], [], rfl, by simp, Or.inl rfl, by simp⟩

theorem matchesStatusRegex_cons_av {l : List BatchStatus} :
    matchesStatusRegex (BatchStatus.awaitingValidation :: l) ↔ matchesStatusRegex l := by
  constructor
  · rintro ⟨avPart, pPart, prePart, heq, hav, hp, hpre⟩
    cases avPart with
    | cons a avTail =>
      simp only [List.cons_append] at heq
      obtain ⟨-, hl⟩ := List.cons.inj heq
      exact ⟨avTail, pPart, prePart, hl,
        fun s hs => hav s (List.mem_cons_of_mem a hs), hp, hpre⟩
    | nil =>
      simp only [List.nil_append] at heq
      rcases hp with rfl | rfl
      · simp only [List.nil_append] at heq
        have hmem : BatchStatus.awaitingValidation ∈ prePart := by
          rw [← heq]; exact List.mem_cons_self _ _
        have := hpre _ hmem
        simp [isPreProcessingStatus] at this
      · simp only [List.cons_append] at heq
        obtain ⟨hhead, -⟩ := List.cons.inj heq
        exact absurd hhead (by simp)
  · rintro ⟨avPart, pPart, prePart, heq, hav, hp, hpre⟩
    refine ⟨BatchStatus.awaitingValidation :: avPart, pPart, prePart, by simp [heq], ?_, hp, hpre⟩
    intro s hs
    rcases List.mem_cons.mp hs with rfl | hs
    · rfl
    · exact hav s hs

theorem matchesStatusRegex_cons_processing {l : List BatchStatus} :
    matchesStatusRegex (BatchStatus.processing :: l) ↔ ∀ s ∈ l, isPreProcessingStatus s := by
  constructor
  · rintro ⟨avPart, pPart, prePart, heq, hav, hp, hpre⟩
    cases avPart with
    | cons a avTail =>
      simp only [List.cons_append] at heq
      obtain ⟨hhead, -⟩ := List.cons.inj heq
      have := hav a (List.mem_cons_self a avTail)
      rw [← hhead] at this
      exact absurd this (by simp)
    | nil =>
      simp only [List.nil_append] at heq
      rcases hp with rfl | rfl
      · simp only [List.nil_append] at heq
        have hmem : BatchStatus.processing ∈ prePart := by
          rw [← heq]; exact List.mem_cons_self _ _
        have := hpre _ hmem
        simp [isPreProcessingStatus] at this
      · simp only [List.singleton_append] at heq
        obtain ⟨-, hl⟩ := List.cons.inj heq
        intro s hs
        exact hpre s (hl ▸ hs)
  · intro hall
    exact ⟨[], [BatchStatus.processing], l, by simp, by simp, Or.inr rfl, hall⟩

theorem matchesStatusRegex_cons_pre {s0 : BatchStatus} {l : List BatchStatus}
    (h0 : isPreProcessingStatus s0) :
    matchesStatusRegex (s0 :: l) ↔ ∀ s ∈ l, isPreProcessingStatus s := by
  have h0av : s0 ≠ BatchStatus.awaitingValidation := by
    rcases h0 with rfl | rfl | rfl <;> simp
  have h0p : s0 ≠ BatchStatus.processing := by
    rcases h0 with rfl | rfl | rfl <;> simp
  constructor
  · rintro ⟨avPart, pPart, prePart, heq, hav, hp, hpre⟩
    cases avPart with
    | cons a avTail =>
      simp only [List.cons_append] at heq
      obtain ⟨hhead, -⟩ := List.cons.inj heq
      exact absurd (hhead ▸ hav a (List.mem_cons_self a avTail)) h0av
    | nil =>
      simp only [List.nil_append] at heq
      rcases hp with rfl | rfl
      · simp only [List.nil_append] at heq
        intro s hs
        exact hpre s (by rw [← heq]; exact List.mem_cons_of_mem s0 hs)
      · simp only [List.singleton_append] at heq
        obtain ⟨hhead, -⟩ := List.cons.inj heq
        exact absurd hhead h0p
  · intro hall
    refine ⟨[], [], s0 :: l, by simp, by simp, Or.inl rfl, ?_⟩
    intro s hs
    rcases List.mem_cons.mp hs with rfl | hs
    · exact h0
    · exact hall s hs

/-! ## Lemmas about `advanceChain` and the sync-loop error handler -/

theorem advanceChainLoop_err_none {e : Epoch} :
    ∀ {l : List (Epoch × Batch)},
      (∀ kb ∈ l, kb.2.startEpoch < e → ∃ a, kb.2.state = BatchState.awaitingValidation a) →
      (advanceChainLoop e l).err = none := by
  intro l
  induction l with
  | nil => intro _; simp [advanceChainLoop]
  | cons kb rest ih =>
    intro hall
    obtain ⟨k, b⟩ := kb
    have htail := ih (fun kb2 h2 => hall kb2 (List.mem_cons_of_mem _ h2))
    by_cases hlt : b.startEpoch < e
    · obtain ⟨a, ha⟩ := hall (k, b) (List.mem_cons_self _ _) hlt
      have ha' : b.state = BatchState.awaitingValidation a := ha
      simp [advanceChainLoop, hlt, Batch.validationSuccess, ha', htail]
    · simp [advanceChainLoop, hlt, htail]

theorem advanceChainLoop_delta_nonneg (e : Epoch) :
    ∀ (l : List (Epoch × Batch)), 0 ≤ (advanceChainLoop e l).validatedDelta := by
  intro l
  induction l with
  | nil => simp [advanceChainLoop]
  | cons kb rest ih =>
    obtain ⟨k, b⟩ := kb
    by_cases hlt : b.startEpoch < e
    · rcases hv : b.validationSuccess with err | a
      · simp [advanceChainLoop, hlt, hv, EPOCHS_PER_BATCH]
      · simp only [advanceChainLoop, if_pos hlt, hv]
        have : (0 : Int) ≤ EPOCHS_PER_BATCH := by simp [EPOCHS_PER_BATCH]
        omega
    · simp only [advanceChainLoop, if_neg hlt]
      exact ih

theorem advanceChain_status (c : SyncChain) (e : Epoch) :
    (c.advanceChain e).chain.status = c.status := by
  rw [SyncChain.advanceChain]
  by_cases hle : e ≤ c.startEpoch
  · rw [if_pos hle]
  · rw [if_neg hle]
    rcases herr : (advanceChainLoop e c.batches).err with - | err <;> simp [herr]

theorem advanceChain_peerset (c : SyncChain) (e : Epoch) :
    (c.advanceChain e).chain.peerset = c.peerset := by
  rw [SyncChain.advanceChain]
  by_cases hle : e ≤ c.startEpoch
  · rw [if_pos hle]
  · rw [if_neg hle]
    rcases herr : (advanceChainLoop e c.batches).err with - | err <;> simp [herr]

theorem advanceChain_startEpoch_mono (c : SyncChain) (e : Epoch) :
    c.startEpoch ≤ (c.advanceChain e).chain.startEpoch := by
  rw [SyncChain.advanceChain]
  by_cases hle : e ≤ c.startEpoch
  · rw [if_pos hle]
  · rw [if_neg hle]
    rcases herr : (advanceChainLoop e c.batches).err with - | err
    · simp only [herr]
      exact le_of_lt (not_le.mp hle)
    · simp only [herr]
      exact le_refl _

theorem advanceChain_validatedEpochs_mono (c : SyncChain) (e : Epoch) :
    c.validatedEpochs ≤ (c.advanceChain e).chain.validatedEpochs := by
  rw [SyncChain.advanceChain]
  by_cases hle : e ≤ c.startEpoch
  · rw [if_pos hle]
  · rw [if_neg hle]
    have hd := advanceChainLoop_delta_nonneg e c.batches
    rcases herr : (advanceChainLoop e c.batches).err with - | err
    · simp only [herr]
      exact le_add_of_nonneg_right hd
    · simp only [herr]
      exact le_add_of_nonneg_right hd

theorem advanceChain_all_validated (c : SyncChain) (e : Epoch)
    (hgt : c.startEpoch < e)
    (hav : ∀ kb ∈ c.batches, kb.2.startEpoch < e →
      ∃ a, kb.2.state = BatchState.awaitingValidation a) :
    (c.advanceChain e).chain.startEpoch = e ∧ (c.advanceChain e).err = none := by
  have herr := advanceChainLoop_err_none hav
  rw [SyncChain.advanceChain, if_neg (not_le.mpr hgt)]
  rcases h : (advanceChainLoop e c.batches).err with - | err
  · simp only [h]
    refine ⟨?_, ?_⟩ <;> trivial
  · rw [h] at herr; exact absurd herr (by simp)

theorem reportBadAttempts_eq_filterMap (attemptOk : Attempt) :
    ∀ l : List Attempt,
      reportBadAttempts attemptOk l = l.filterMap (expectedReport attemptOk) := by
  intro l
  induction l with
  | nil => simp [reportBadAttempts]
  | cons a rest ih =>
    by_cases hh : a.hash = attemptOk.hash
    · have hbe : byteArrayEquals a.hash attemptOk.hash = true := by
        simp [byteArrayEquals, hh]
      simp only [reportBadAttempts, hbe, if_true, List.filterMap_cons, expectedReport,
        if_pos hh, ih]
    · have hbe : byteArrayEquals a.hash attemptOk.hash = false := by
        simp [byteArrayEquals, hh]
      by_cases hp : attemptOk.peer = a.peer
      · have hp2 : a.peer = attemptOk.peer := hp.symm
        simp only [reportBadAttempts, hbe, Bool.false_eq_true, if_false, if_pos hp,
          List.filterMap_cons, expectedReport, if_neg hh, if_pos hp2, ih]
      · have hp2 : ¬ a.peer = attemptOk.peer := fun h => hp h.symm
        simp only [reportBadAttempts, hbe, Bool.false_eq_true, if_false, if_neg hp,
          List.filterMap_cons, expectedReport, if_neg hh, if_neg hp2, ih]

theorem filter_report_peer_nil (act : PeerAction) (nm : String) :
    ∀ {l : List Peer} {p : Peer}, p ∉ l →
      (l.map (fun peer =>
          ({ peer := peer, action := act, actionName := nm } : PeerReport))).filter
        (fun rep => rep.peer = p) = [] := by
  intro l
  induction l with
  | nil => intro p _; rfl
  | cons r rr ih =>
    intro p hp
    simp only [List.mem_cons, not_or] at hp
    have hr : ¬ (r = p) := fun h => hp.1 h.symm
    simp only [List.map_cons, List.filter_cons]
    rw [if_neg (by simp [hr])]
    exact ih hp.2

theorem filter_report_peer_length {act : PeerAction} {nm : String} :
    ∀ {l : List Peer}, l.Nodup → ∀ {p : Peer}, p ∈ l →
      ((l.map (fun peer =>
          ({ peer := peer, action := act, actionName := nm } : PeerReport))).filter
        (fun rep => rep.peer = p)).length = 1 := by
  intro l
  induction l with
  | nil => intro _ p hp; simp at hp
  | cons q rest ih =>
    intro hnd p hp
    rw [List.nodup_cons] at hnd
    rcases List.mem_cons.mp hp with rfl | hp2
    · have hnone := filter_report_peer_nil act nm hnd.1
      simp [List.filter_cons, hnone]
    · have hq : ¬ (q = p) := fun h => hnd.1 (h ▸ hp2)
      simp only [List.map_cons, List.filter_cons]
      rw [if_neg (by simp [hq])]
      exact ih hnd.2 hp2

/-! ## Further helper lemmas -/

theorem forall_status_map {rest : List Batch} :
    (∀ s ∈ rest.map (fun b => b.state.status), isPreProcessingStatus s) ↔
      ∀ b ∈ rest, isPreProcessingStatus b.state.status := by
  constructor
  · intro h b hb
    exact h _ (List.mem_map_of_mem _ hb)
  · intro h s hs
    obtain ⟨b, hb, rfl⟩ := List.mem_map.mp hs
    exact h b hb

theorem validationSuccess_wrongStatus {b : Batch}
    (h : b.state.status ≠ BatchStatus.awaitingValidation) :
    b.validationSuccess = .error .wrongStatus := by
  rcases hs : b.state with _ | ⟨p, bl⟩ | ⟨p, bl⟩ | a | a
  · simp [Batch.validationSuccess, hs]
  · simp [Batch.validationSuccess, hs]
  · simp [Batch.validationSuccess, hs]
  · simp [Batch.validationSuccess, hs]
  · exfalso
    apply h
    rw [hs]
    rfl

theorem onSyncLoopError_fixed_fields (c : SyncChain) (e : SyncError) :
    (c.onSyncLoopError e).chain.startEpoch = c.startEpoch ∧
    (c.onSyncLoopError e).chain.validatedEpochs = c.validatedEpochs := by
  rcases e with - | code | msg
  · exact ⟨rfl, rfl⟩
  · rcases code with - | - | - <;> exact ⟨rfl, rfl⟩
  · exact ⟨rfl, rfl⟩

theorem startSyncing_mono (c : SyncChain) (e : Epoch) :
    c.startEpoch ≤ (c.startSyncing e).chain.startEpoch ∧
    c.validatedEpochs ≤ (c.startSyncing e).chain.validatedEpochs := by
  obtain ⟨se, st, ve, bs, ps, tg, ty, op, sl⟩ := c
  cases st
  · exact ⟨advanceChain_startEpoch_mono _ _, advanceChain_validatedEpochs_mono _ _⟩
  · exact ⟨le_refl _, le_refl _⟩
  · exact ⟨le_refl _, le_refl _⟩
  · exact ⟨le_refl _, le_refl _⟩

theorem advanceChain_nil_batches (c : SyncChain) (e : Epoch) (hb : c.batches = []) :
    (c.advanceChain e).chain.startEpoch = max c.startEpoch e ∧
    (c.advanceChain e).err = none := by
  rw [SyncChain.advanceChain]
  by_cases hle : e ≤ c.startEpoch
  · rw [if_pos hle]
    exact ⟨(max_eq_left hle).symm, rfl⟩
  · rw [if_neg hle, hb]
    refine ⟨?_, rfl⟩
    show e = max c.startEpoch e
    exact (max_eq_right (le_of_lt (not_le.mp hle))).symm

theorem map_batchFailure_ne_startAfterEnded (o : Option BatchErrorCode) :
    o.map StartError.batchFailure ≠ some StartError.startAfterEnded := by
  cases o <;> simp

theorem lexLeb_first_le {a b : Nat × Nat} (h : lexLeb a b = true) : a.1 ≤ b.1 := by
  simp only [lexLeb, Bool.or_eq_true, Bool.and_eq_true, decide_eq_true_eq, beq_iff_eq] at h
  omega

theorem sortByAsc_head_exists {l : List α} (h : l ≠ []) (k1 k2 : α → Nat) :
    ∃ p t, sortByAsc l k1 k2 = p :: t := by
  rcases l with - | ⟨x, xs⟩
  · exact absurd rfl h
  · rcases hs : sortByAsc (x :: xs) k1 k2 with - | ⟨p, t⟩
    · exact absurd hs sortWith_ne_nil
    · exact ⟨p, t, rfl⟩

theorem head?_eq_some_of {l : List α} {p : α} (h : l.head? = some p) :
    ∃ t, l = p :: t := by
  cases l with
  | nil => simp at h
  | cons x xs =>
    simp only [List.head?] at h
    obtain rfl := Option.some.inj h
    exact ⟨xs, rfl⟩

theorem lexGeb_chain_keys {top d : SyncChain}
    (h : lexGeb (top.peers, if top.isSyncing then 1 else 0)
      (d.peers, if d.isSyncing then 1 else 0) = true) :
    d.peers ≤ top.peers ∧
      (d.peers = top.peers → d.isSyncing = true → top.isSyncing = true) := by
  simp only [lexGeb, Bool.or_eq_true, Bool.and_eq_true, decide_eq_true_eq, beq_iff_eq] at h
  constructor
  · rcases h with h | ⟨heq, -⟩
    · exact le_of_lt h
    · exact le_of_eq heq.symm
  · intro hpeq hdsync
    rcases h with h | ⟨-, hle⟩
    · omega
    · rw [hdsync] at hle
      by_cases ht : top.isSyncing = true
      · exact ht
      · rw [if_pos rfl, if_neg ht] at hle
        omega

/-! ## The claims -/

/-- C1: for every list of batches read in ascending `startEpoch` order,
`validateBatchesStatus(batches)` returns without error if and only if the
sequence of their statuses matches the pattern
`AwaitingValidation* Processing? (AwaitingDownload | Downloading | AwaitingProcessing)*`;
on any deviation it throws. -/
theorem c1_validateBatchesStatus_iff_regex (batches : List Batch) :
    validateBatchesStatus batches = .ok () ↔
      matchesStatusRegex (batches.map (fun b => b.state.status)) := by
  rw [validateBatchesStatus]
  induction batches with
  | nil =>
    simp only [List.map_nil]
    constructor
    · intro _; exact matchesStatusRegex_nil
    · intro _; rfl
  | cons b rest ih =>
    rcases hs : b.state.status with _ | _ | _ | _ | _
    · -- awaitingDownload
      rw [show validateBatchesStatusFrom 0 0 (b :: rest) =
            validateBatchesStatusFrom 0 1 rest by simp [validateBatchesStatusFrom, hs]]
      rw [validateFrom_preProcessing_pos rest 0 1 Nat.one_pos]
      simp only [List.map_cons, hs]
      rw [matchesStatusRegex_cons_pre (by simp [isPreProcessingStatus])]
      exact forall_status_map.symm
    · -- downloading
      rw [show validateBatchesStatusFrom 0 0 (b :: rest) =
            validateBatchesStatusFrom 0 1 rest by simp [validateBatchesStatusFrom, hs]]
      rw [validateFrom_preProcessing_pos rest 0 1 Nat.one_pos]
      simp only [List.map_cons, hs]
      rw [matchesStatusRegex_cons_pre (by simp [isPreProcessingStatus])]
      exact forall_status_map.symm
    · -- awaitingProcessing
      rw [show validateBatchesStatusFrom 0 0 (b :: rest) =
            validateBatchesStatusFrom 0 1 rest by simp [validateBatchesStatusFrom, hs]]
      rw [validateFrom_preProcessing_pos rest 0 1 Nat.one_pos]
      simp only [List.map_cons, hs]
      rw [matchesStatusRegex_cons_pre (by simp [isPreProcessingStatus])]
      exact forall_status_map.symm
    · -- processing
      rw [show validateBatchesStatusFrom 0 0 (b :: rest) =
            validateBatchesStatusFrom 1 0 rest by simp [validateBatchesStatusFrom, hs]]
      rw [validateFrom_processing_one rest]
      simp only [List.map_cons, hs]
      rw [matchesStatusRegex_cons_processing]
      exact forall_status_map.symm
    · -- awaitingValidation
      rw [show validateBatchesStatusFrom 0 0 (b :: rest) =
            validateBatchesStatusFrom 0 0 rest by simp [validateBatchesStatusFrom, hs]]
      rw [ih]
      simp only [List.map_cons, hs]
      rw [matchesStatusRegex_cons_av]

/-- C2: for every batch in state `Downloading`, `downloadingError()` appends the
downloading peer to `failedDownloadAttempts` and returns the batch to
`AwaitingDownload`; when the number of failed download attempts reaches
`MAX_DOWNLOAD_ATTEMPTS` (5) the call fails with `MaxDownloadAttempts`, and that
error (reaching the sync loop) transitions the owning chain to status `Error`. -/
theorem c2_downloadingError_cap (b : Batch) (peer : Peer) (blocks : List Block)
    (hdl : b.state = BatchState.downloading peer blocks) :
    (b.failedDownloadAttempts.length + 1 < MAX_DOWNLOAD_ATTEMPTS →
      b.downloadingError = .ok
        { b with
            state := .awaitingDownload
            failedDownloadAttempts := b.failedDownloadAttempts ++ [peer] }) ∧
    (MAX_DOWNLOAD_ATTEMPTS ≤ b.failedDownloadAttempts.length + 1 →
      b.downloadingError = .error .maxDownloadAttempts) ∧
    (∀ c : SyncChain,
      (c.onSyncLoopError (.batchFailure .maxDownloadAttempts)).chain.status =
        SyncChainStatus.error ∧
      (c.onSyncLoopError (.batchFailure .maxDownloadAttempts)).onEndArg =
        some (.batchFailure .maxDownloadAttempts)) := by
  refine ⟨?_, ?_, fun c => ⟨rfl, rfl⟩⟩
  · intro hlt
    have hcond : ¬ (MAX_DOWNLOAD_ATTEMPTS ≤ (b.failedDownloadAttempts ++ [peer]).length) := by
      rw [List.length_append]
      simpa using hlt
    simp only [Batch.downloadingError, hdl, if_neg hcond]
  · intro hge
    have hcond : MAX_DOWNLOAD_ATTEMPTS ≤ (b.failedDownloadAttempts ++ [peer]).length := by
      rw [List.length_append]
      simpa using hge
    simp only [Batch.downloadingError, hdl, if_pos hcond]

/-- C2 witness: a fresh failure is recorded and the batch returns to
`AwaitingDownload`; the fifth failure raises `MaxDownloadAttempts`, which sets
the owning chain's status to `Error`. -/
theorem c2_witness :
    batchFreshDownload.downloadingError = .ok
      { batchFreshDownload with
          state := .awaitingDownload
          failedDownloadAttempts := [9] } ∧
    batchFourFailures.downloadingError = .error .maxDownloadAttempts ∧
    (chainDownloadOwner.onSyncLoopError (.batchFailure .maxDownloadAttempts)).chain.status =
      SyncChainStatus.error := by
  refine ⟨?_, ?_, ?_⟩
  · exact (c2_downloadingError_cap batchFreshDownload 9 [] rfl).1 (by decide)
  · exact (c2_downloadingError_cap batchFourFailures 9 [] rfl).2.1 (by decide)
  · exact ((c2_downloadingError_cap batchFourFailures 9 [] rfl).2.2 chainDownloadOwner).1

/-- C3 counterexample: with `BATCH_BUFFER_SIZE = 5`, the processor held on batch 0
and exactly five batches (epochs 2..10) in the `Downloading`/`AwaitingProcessing`
buffer, `includeNextBatch()` does NOT return nothing — it creates the batch at
`startEpoch = 12` (the buffer check is strict `>`). -/
theorem c3_counterexample :
    ((chainHeldFive.batches.map Prod.snd).filter Batch.inDownloadBuffer).length =
      BATCH_BUFFER_SIZE ∧
    chainHeldFive.includeNextBatch.batch = some (Batch.create 12) := by decide

/-- C3 (amended): `includeNextBatch()` returns nothing only once strictly more
than `BATCH_BUFFER_SIZE` batches are buffered, so with the processor held on
batch 0 the downloader creates batches up to and including `startEpoch = 12`
(six in the buffer); from then on every further call returns nothing. -/
theorem c3_buffer_boundary :
    (∀ c : SyncChain,
      BATCH_BUFFER_SIZE < ((c.batches.map Prod.snd).filter Batch.inDownloadBuffer).length →
      c.includeNextBatch.batch = none ∧ c.includeNextBatch.chain = c) ∧
    chainHeldFive.includeNextBatch.batch = some (Batch.create 12) ∧
    chainHeldFive.includeNextBatch.chain.batches =
      chainHeldFive.batches ++ [(12, Batch.create 12)] ∧
    chainHeldSix.includeNextBatch.batch = none := by
  refine ⟨?_, by decide, by decide, by decide⟩
  intro c hbuf
  rw [SyncChain.includeNextBatch, if_pos hbuf]
  exact ⟨rfl, rfl⟩

/-- C3 witness: with the six batches at epochs 2..12 buffered, the next
`includeNextBatch()` call returns nothing and leaves the chain unchanged. -/
theorem c3_witness :
    chainHeldSix.includeNextBatch.batch = none ∧
    chainHeldSix.includeNextBatch.chain = chainHeldSix :=
  c3_buffer_boundary.1 chainHeldSix (by decide)

/-- C10: for every `SyncChain` whose status is `Synced` or `Error`,
`stopSyncing()` unconditionally sets the status to `Stopped`, after which
`isRemovable` is false and a subsequent `startSyncing(e)` proceeds (the status
becomes `Syncing`) instead of failing with `StartAfterEnded`. -/
theorem c10_terminal_states_not_permanent (c : SyncChain) (e : Epoch)
    (_hterm : c.status = SyncChainStatus.synced ∨ c.status = SyncChainStatus.error) :
    c.stopSyncing.status = SyncChainStatus.stopped ∧
    c.stopSyncing.isRemovable = false ∧
    (c.stopSyncing.startSyncing e).chain.status = SyncChainStatus.syncing ∧
    (c.stopSyncing.startSyncing e).err ≠ some StartError.startAfterEnded := by
  refine ⟨rfl, rfl, ?_, ?_⟩
  · exact advanceChain_status _ _
  · exact map_batchFailure_ne_startAfterEnded _

/-- C10 witness: a `Synced` chain, stopped and restarted. -/
theorem c10_witness :
    chainSyncedDone.stopSyncing.status = SyncChainStatus.stopped ∧
    chainSyncedDone.stopSyncing.isRemovable = false ∧
    (chainSyncedDone.stopSyncing.startSyncing 24).chain.status = SyncChainStatus.syncing ∧
    (chainSyncedDone.stopSyncing.startSyncing 24).err ≠ some StartError.startAfterEnded :=
  c10_terminal_states_not_permanent chainSyncedDone 24 (Or.inl rfl)

/-- C4 counterexample: on a chain holding a batch that is still `Downloading`
below the boundary, `advanceChain(2)` with `2 > startEpoch = 0` does NOT set
`startEpoch = 2` — `validationSuccess()` throws `WrongBatchState` first. -/
theorem c4_counterexample :
    chainDownloadingBelow.startEpoch < 2 ∧
    (chainDownloadingBelow.advanceChain 2).chain.startEpoch ≠ 2 ∧
    (chainDownloadingBelow.advanceChain 2).err = some BatchErrorCode.wrongStatus := by
  decide

/-- C4 (amended): `advanceChain(e)` with `e ≤ startEpoch` is a full no-op; with
`e > startEpoch` it sets `startEpoch = e` provided every removed batch is in
`AwaitingValidation` (otherwise the call fails with `WrongBatchState` and
`startEpoch` is unchanged); in all cases `startEpoch` never decreases and
`validatedEpochs` is non-decreasing, across `advanceChain`, `startSyncing`,
`stopSyncing` and the sync-loop error handler. -/
theorem c4_advanceChain_monotone (c : SyncChain) (e : Epoch) :
    (e ≤ c.startEpoch → c.advanceChain e = { chain := c, reports := [], err := none }) ∧
    (c.startEpoch < e →
      (∀ kb ∈ c.batches, kb.2.startEpoch < e →
        ∃ a, kb.2.state = BatchState.awaitingValidation a) →
      (c.advanceChain e).chain.startEpoch = e ∧ (c.advanceChain e).err = none) ∧
    c.startEpoch ≤ (c.advanceChain e).chain.startEpoch ∧
    c.validatedEpochs ≤ (c.advanceChain e).chain.validatedEpochs ∧
    c.startEpoch ≤ (c.startSyncing e).chain.startEpoch ∧
    c.validatedEpochs ≤ (c.startSyncing e).chain.validatedEpochs ∧
    c.stopSyncing.startEpoch = c.startEpoch ∧
    c.stopSyncing.validatedEpochs = c.validatedEpochs ∧
    (∀ err : SyncError,
      (c.onSyncLoopError err).chain.startEpoch = c.startEpoch ∧
      (c.onSyncLoopError err).chain.validatedEpochs = c.validatedEpochs) := by
  refine ⟨?_, ?_, advanceChain_startEpoch_mono c e, advanceChain_validatedEpochs_mono c e,
    (startSyncing_mono c e).1, (startSyncing_mono c e).2, rfl, rfl,
    onSyncLoopError_fixed_fields c⟩
  · intro hle
    rw [SyncChain.advanceChain, if_pos hle]
  · intro hgt hav
    exact advanceChain_all_validated c e hgt hav

/-- C4 witness: a no-op advancement, and an advancement over a validated batch. -/
theorem c4_witness :
    chainValidatedBelow.advanceChain 0 =
      { chain := chainValidatedBelow, reports := [], err := none } ∧
    (chainValidatedBelow.advanceChain 2).chain.startEpoch = 2 ∧
    (chainValidatedBelow.advanceChain 2).err = none := by
  refine ⟨(c4_advanceChain_monotone chainValidatedBelow 0).1 (by decide), ?_⟩
  refine (c4_advanceChain_monotone chainValidatedBelow 2).2.1 (by decide) ?_
  intro kb hkb _
  have hkb2 : kb = (0, mkBatch 0 (.awaitingValidation { peer := 3, hash := [9] })) := by
    simpa [chainValidatedBelow] using hkb
  subst hkb2
  exact ⟨_, rfl⟩

/-- C5 counterexample: `advanceChain` calls `validationSuccess()` on every
removed batch, not only on `AwaitingValidation` ones — removing a batch that is
still `Downloading` fails with `WrongBatchState` (the failure of the
unconditional `validationSuccess()` call). -/
theorem c5_counterexample :
    (mkBatch 2 (.downloading 5 [])).state.status ≠ BatchStatus.awaitingValidation ∧
    chainUnvalidatedBelow.batches = [(2, mkBatch 2 (.downloading 5 []))] ∧
    chainUnvalidatedBelow.startEpoch < 4 ∧
    (chainUnvalidatedBelow.advanceChain 4).err = some BatchErrorCode.wrongStatus := by
  decide

/-- C5 (amended): `advanceChain` calls `validationSuccess()` on every removed
batch — failing with `WrongBatchState` when the batch was not in
`AwaitingValidation`; when it was, the winning attempt is returned and for every
`failedProcessingAttempts` entry with a different hash the peer is reported —
`MidToleranceError` "SyncChainInvalidBatchSelf" for the winner's own peer,
`LowToleranceError` "SyncChainInvalidBatchOther" otherwise; entries with the
winning hash trigger no report. -/
theorem c5_validation_scoring :
    (∀ (c : SyncChain) (e k : Epoch) (b : Batch) (a : Attempt),
      c.batches = [(k, b)] → b.state = BatchState.awaitingValidation a →
      b.startEpoch < e → c.startEpoch < e →
      (c.advanceChain e).reports = b.failedProcessingAttempts.filterMap (expectedReport a) ∧
      (c.advanceChain e).err = none) ∧
    (∀ (c : SyncChain) (e k : Epoch) (b : Batch),
      c.batches = [(k, b)] → b.startEpoch < e → c.startEpoch < e →
      b.state.status ≠ BatchStatus.awaitingValidation →
      (c.advanceChain e).err = some BatchErrorCode.wrongStatus) := by
  constructor
  · intro c e k b a hb hav hlt hgt
    rw [SyncChain.advanceChain, if_neg (not_le.mpr hgt), hb]
    have hloop : advanceChainLoop e [(k, b)] =
        { batches := []
          validatedDelta := EPOCHS_PER_BATCH + 0
          reports := reportBadAttempts a b.failedProcessingAttempts ++ []
          err := none } := by
      simp only [advanceChainLoop, if_pos hlt, Batch.validationSuccess, hav]
    rw [hloop]
    refine ⟨?_, rfl⟩
    show reportBadAttempts a b.failedProcessingAttempts ++ [] =
      b.failedProcessingAttempts.filterMap (expectedReport a)
    rw [List.append_nil, reportBadAttempts_eq_filterMap]
  · intro c e k b hb hlt hgt hstatus
    rw [SyncChain.advanceChain, if_neg (not_le.mpr hgt), hb]
    have hloop : advanceChainLoop e [(k, b)] =
        { batches := []
          validatedDelta := EPOCHS_PER_BATCH
          reports := []
          err := some BatchErrorCode.wrongStatus } := by
      simp only [advanceChainLoop, if_pos hlt, validationSuccess_wrongStatus hstatus]
    rw [hloop]

/-- C5 witness: the three reporting cases on a concrete batch (same peer with a
different hash → Mid/Self; other peer, different hash → Low/Other; winning hash
→ no report), plus the `WrongBatchState` failure for a non-validated batch. -/
theorem c5_witness :
    (chainScored.advanceChain 2).reports =
      [{ peer := 1, action := .midToleranceError, actionName := "SyncChainInvalidBatchSelf" },
       { peer := 2, action := .lowToleranceError, actionName := "SyncChainInvalidBatchOther" }] ∧
    (chainScored.advanceChain 2).err = none ∧
    (chainUnvalidatedBelow.advanceChain 4).err = some BatchErrorCode.wrongStatus := by
  have h1 := c5_validation_scoring.1 chainScored 2 0 scoredBatch winningAttempt rfl rfl
    (by decide) (by decide)
  have h2 := c5_validation_scoring.2 chainUnvalidatedBelow 4 2
    (mkBatch 2 (.downloading 5 [])) rfl (by decide) (by decide) (by decide)
  refine ⟨?_, h1.2, h2⟩
  rw [h1.1]
  decide

/-- C6: if a batch exceeds its processing retry cap, `processingError()` fails
with `MaxProcessingAttempts`; that error transitions the owning chain to status
`Error`, every peer in its peerset is reported exactly once with
`LowToleranceError` and reason "SyncChainMaxProcessingAttempts", and `onEnd` is
invoked exactly once carrying that error. -/
theorem c6_max_processing_attempts (b : Batch) (a : Attempt) (c : SyncChain)
    (hb : b.state = BatchState.processing a)
    (hcnt : MAX_PROCESSING_ATTEMPTS ≤ b.failedProcessingAttempts.length + 1)
    (hnd : c.peerset.Nodup) :
    b.processingError = .error .maxProcessingAttempts ∧
    (c.onSyncLoopError (.batchFailure .maxProcessingAttempts)).chain.status =
      SyncChainStatus.error ∧
    (∀ p ∈ c.peerset,
      ((c.onSyncLoopError (.batchFailure .maxProcessingAttempts)).reports.filter
        (fun rep => rep.peer = p)).length = 1) ∧
    (∀ rep ∈ (c.onSyncLoopError (.batchFailure .maxProcessingAttempts)).reports,
      rep.peer ∈ c.peerset ∧ rep.action = PeerAction.lowToleranceError ∧
        rep.actionName = "SyncChainMaxProcessingAttempts") ∧
    (c.onSyncLoopError (.batchFailure .maxProcessingAttempts)).onEndArg =
      some (.batchFailure .maxProcessingAttempts) := by
  refine ⟨?_, rfl, ?_, ?_, rfl⟩
  · have hcond : MAX_PROCESSING_ATTEMPTS ≤ (b.failedProcessingAttempts ++ [a]).length := by
      rw [List.length_append]
      simpa using hcnt
    simp only [Batch.processingError, hb, if_pos hcond]
  · intro p hp
    exact filter_report_peer_length hnd hp
  · intro rep hrep
    obtain ⟨q, hq, rfl⟩ := List.mem_map.mp hrep
    exact ⟨hq, rfl, rfl⟩

/-- C6 witness: the third processing failure of batch 4 raises
`MaxProcessingAttempts`; the chain goes to `Error`, each of its three peers is
reported exactly once, and `onEnd` carries the error. -/
theorem c6_witness :
    batchThirdProcessingFailure.processingError = .error .maxProcessingAttempts ∧
    (chainPeerTrio.onSyncLoopError (.batchFailure .maxProcessingAttempts)).chain.status =
      SyncChainStatus.error ∧
    ((chainPeerTrio.onSyncLoopError (.batchFailure .maxProcessingAttempts)).reports.filter
      (fun rep => rep.peer = 5)).length = 1 ∧
    (chainPeerTrio.onSyncLoopError (.batchFailure .maxProcessingAttempts)).onEndArg =
      some (.batchFailure .maxProcessingAttempts) := by
  have h := c6_max_processing_attempts batchThirdProcessingFailure
    { peer := 2, hash := [1] } chainPeerTrio rfl (by decide) (by decide)
  exact ⟨h.1, h.2.1, h.2.2.1 5 (by decide), h.2.2.2.2⟩

/-- C7 counterexample: with configured `epochsPerBatch = 3`, `startSyncing(4)`
advances the chain to epoch 4 (alignment computed with the constant
`EPOCHS_PER_BATCH = 2`), not to `0 + ⌊(4 − 0)/3⌋·3 = 3` as the claim's
"for every configured epochs_per_batch" demands. -/
theorem c7_counterexample :
    chainOptsThree.opts.epochsPerBatch = 3 ∧
    (chainOptsThree.startSyncing 4).chain.startEpoch = 4 ∧
    chainOptsThree.startEpoch +
        ((4 - chainOptsThree.startEpoch).fdiv chainOptsThree.opts.epochsPerBatch) *
          chainOptsThree.opts.epochsPerBatch = 3 ∧
    (4 : Epoch) ≠ 3 := by
  decide

/-- C7 (amended): `startSyncing(localFinalizedEpoch)` is a no-op when `Syncing`,
fails with `StartAfterEnded` when `Synced` or `Error`, and from `Stopped` sets
the status to `Syncing` and advances the chain to
`startEpoch + ⌊(localFinalizedEpoch − startEpoch) / EPOCHS_PER_BATCH⌋ · EPOCHS_PER_BATCH`
computed with the constant `EPOCHS_PER_BATCH = 2` — not with the configured
`opts.epochsPerBatch`. -/
theorem c7_startSyncing_behavior (c : SyncChain) (e : Epoch) :
    (c.status = SyncChainStatus.syncing →
      c.startSyncing e = { chain := c, reports := [], err := none }) ∧
    (c.status = SyncChainStatus.synced ∨ c.status = SyncChainStatus.error →
      c.startSyncing e = { chain := c, reports := [], err := some .startAfterEnded }) ∧
    (c.status = SyncChainStatus.stopped → c.batches = [] →
      (c.startSyncing e).chain.status = SyncChainStatus.syncing ∧
      (c.startSyncing e).chain.startEpoch =
        max c.startEpoch
          (c.startEpoch + ((e - c.startEpoch).fdiv EPOCHS_PER_BATCH) * EPOCHS_PER_BATCH) ∧
      (c.startSyncing e).err = none) := by
  obtain ⟨se, st, ve, bs, ps, tg, ty, op, sl⟩ := c
  refine ⟨?_, ?_, ?_⟩
  · intro hst
    cases st with
    | syncing => rfl
    | stopped => exact absurd hst (by simp)
    | synced => exact absurd hst (by simp)
    | error => exact absurd hst (by simp)
  · intro hst
    cases st with
    | synced => rfl
    | error => rfl
    | stopped => rcases hst with hst | hst <;> exact absurd hst (by simp)
    | syncing => rcases hst with hst | hst <;> exact absurd hst (by simp)
  · intro hst hb
    cases st with
    | syncing => exact absurd hst (by simp)
    | synced => exact absurd hst (by simp)
    | error => exact absurd hst (by simp)
    | stopped =>
      have hb2 : (⟨se, SyncChainStatus.syncing, ve, bs, ps, tg, ty, op, sl⟩ :
          SyncChain).batches = [] := hb
      have hnil := advanceChain_nil_batches
        ⟨se, SyncChainStatus.syncing, ve, bs, ps, tg, ty, op, sl⟩
        (se + ((e - se).fdiv EPOCHS_PER_BATCH) * EPOCHS_PER_BATCH) hb2
      refine ⟨advanceChain_status _ _, hnil.1, ?_⟩
      show Option.map StartError.batchFailure
        ((⟨se, SyncChainStatus.syncing, ve, bs, ps, tg, ty, op, sl⟩ :
          SyncChain).advanceChain
          (se + ((e - se).fdiv EPOCHS_PER_BATCH) * EPOCHS_PER_BATCH)).err = none
      rw [hnil.2]
      rfl

/-- C7 witness: a `Syncing` chain is untouched, a `Synced` chain fails with
`StartAfterEnded`, and from `Stopped` with the default options `startSyncing(5)`
aligns to epoch 4 and sets the status to `Syncing`. -/
theorem c7_witness :
    chainScored.startSyncing 4 = { chain := chainScored, reports := [], err := none } ∧
    chainSyncedDone.startSyncing 24 =
      { chain := chainSyncedDone, reports := [], err := some .startAfterEnded } ∧
    (chainStoppedDefault.startSyncing 5).chain.status = SyncChainStatus.syncing ∧
    (chainStoppedDefault.startSyncing 5).chain.startEpoch =
      max chainStoppedDefault.startEpoch
        (chainStoppedDefault.startEpoch +
          ((5 - chainStoppedDefault.startEpoch).fdiv EPOCHS_PER_BATCH) * EPOCHS_PER_BATCH) ∧
    (chainStoppedDefault.startSyncing 5).err = none :=
  ⟨(c7_startSyncing_behavior chainScored 4).1 rfl,
   (c7_startSyncing_behavior chainSyncedDone 24).2.1 (Or.inl rfl),
   (c7_startSyncing_behavior chainStoppedDefault 5).2.2 rfl rfl⟩

/-- C8 counterexample: in the asStateMachine implementation (in the sources) the
failed peers are merely deprioritized — with a single peer that already failed
this batch's download, the retry selection still chooses that failed peer. -/
theorem c8_counterexample :
    ASM.bestRetryPeer [7] [asmBatchAllFailed] asmBatchAllFailed = some 7 ∧
    7 ∈ asmBatchAllFailed.getFailedPeers := by decide

/-- C8 (amended): the range peer balancer (modelled from the spec) excludes
peers in `batch.getFailedPeers()` and picks, among the remaining, one with the
fewest currently-active downloads; the asStateMachine `requestBatches` selection
(in the sources) only deprioritizes failed peers — the chosen peer precedes every
other peer in the ascending (failed-flag, active-requests) order, and some peer
is always chosen when the peer list is non-empty, a failed peer included. -/
theorem c8_retry_peer_policy :
    (∀ (peers : List Peer) (batches : List Batch) (batch : Batch) (p : Peer),
      bestPeerToRetryBatch peers batches batch = some p →
      p ∈ peers ∧ p ∉ batch.getFailedPeers ∧
      ∀ q ∈ peers, q ∉ batch.getFailedPeers →
        activeDownloadCount batches p ≤ activeDownloadCount batches q) ∧
    (∀ (peers : List Peer) (batches : List ASM.Batch) (batch : ASM.Batch) (p : Peer),
      ASM.bestRetryPeer peers batches batch = some p →
      p ∈ peers ∧
      ∀ q ∈ peers,
        (p ∉ batch.getFailedPeers ∧ q ∈ batch.getFailedPeers) ∨
        ((p ∈ batch.getFailedPeers ↔ q ∈ batch.getFailedPeers) ∧
          ASM.getActiveRequestsByPeer batches p ≤ ASM.getActiveRequestsByPeer batches q)) ∧
    (∀ (peers : List Peer) (batches : List ASM.Batch) (batch : ASM.Batch),
      peers ≠ [] → ∃ p, ASM.bestRetryPeer peers batches batch = some p) := by
  refine ⟨?_, ?_, ?_⟩
  · intro peers batches batch p hp
    simp only [bestPeerToRetryBatch] at hp
    obtain ⟨t0, hs⟩ := head?_eq_some_of hp
    have hmem0 : p ∈ p :: t0 := List.mem_cons_self p t0
    rw [← hs] at hmem0
    have hmem := mem_sortByAsc.mp hmem0
    have hpp := List.mem_filter.mp hmem
    have hpeers : p ∈ peers := hpp.1
    have hnotfailed : p ∉ batch.getFailedPeers := by simpa using hpp.2
    refine ⟨hpeers, hnotfailed, ?_⟩
    intro q hq hqnf
    have hqmem : q ∈ peers.filter (fun peer => decide (peer ∉ batch.getFailedPeers)) :=
      List.mem_filter.mpr ⟨hq, by simpa using hqnf⟩
    exact lexLeb_first_le (sortByAsc_head_le hs q hqmem)
  · intro peers batches batch p hp
    simp only [ASM.bestRetryPeer] at hp
    obtain ⟨t0, hs⟩ := head?_eq_some_of hp
    have hmem0 : p ∈ p :: t0 := List.mem_cons_self p t0
    rw [← hs] at hmem0
    have hpeers : p ∈ peers := mem_sortByAsc.mp hmem0
    refine ⟨hpeers, ?_⟩
    intro q hq
    have hlex := sortByAsc_head_le hs q hq
    simp only [lexLeb, Bool.or_eq_true, Bool.and_eq_true, decide_eq_true_eq,
      beq_iff_eq] at hlex
    by_cases hpf : p ∈ batch.getFailedPeers <;> by_cases hqf : q ∈ batch.getFailedPeers
    · right
      refine ⟨by tauto, ?_⟩
      rw [if_pos hpf, if_pos hqf] at hlex
      omega
    · exfalso
      rw [if_pos hpf, if_neg hqf] at hlex
      omega
    · exact Or.inl ⟨hpf, hqf⟩
    · right
      refine ⟨by tauto, ?_⟩
      rw [if_neg hpf, if_neg hqf] at hlex
      omega
  · intro peers batches batch hne
    obtain ⟨p, t, hs⟩ := sortByAsc_head_exists hne
      (fun peer => if peer ∈ batch.getFailedPeers then 1 else 0)
      (fun peer => ASM.getActiveRequestsByPeer batches peer)
    refine ⟨p, ?_⟩
    simp only [ASM.bestRetryPeer]
    rw [hs]
    rfl

/-- C8 witness: range balancer — peer 3 (clean) is chosen over failed peer 7 and
is no busier than any other clean peer; asStateMachine — some peer is always
chosen from a non-empty (entirely failed) peer list. -/
theorem c8_witness :
    (3 ∈ ([3, 7] : List Peer) ∧ 3 ∉ batchPeerSevenFailed.getFailedPeers) ∧
    7 ∈ ([7] : List Peer) ∧
    (∃ p, ASM.bestRetryPeer [7] [] asmBatchAllFailed = some p) := by
  have h1 := c8_retry_peer_policy.1 [3, 7] [] batchPeerSevenFailed 3 (by decide)
  have h2 := c8_retry_peer_policy.2.1 [7] [] asmBatchAllFailed 7 (by decide)
  have h3 := c8_retry_peer_policy.2.2 [7] [] asmBatchAllFailed (by decide)
  exact ⟨⟨h1.1, h1.2.1⟩, h2.1, h3⟩

/-- C9: `updateFinalizedChains` (driving `updateChains`) starts at most one
finalized chain: it selects the chain with the most peers, preferring a
currently-syncing chain on ties, and switches away from the currently syncing
chain only when the selected chain is different, has strictly more peers, and
the current chain's `validatedEpochs` exceeds
`MIN_FINALIZED_CHAIN_VALIDATED_EPOCHS`; otherwise nothing is started or stopped. -/
theorem c9_finalized_chain_selection :
    (∀ (fcs ts tp : List SyncChain),
      updateFinalizedChains fcs = some (ts, tp) →
      ts.length ≤ 1 ∧ tp.length ≤ 1 ∧
      (∀ top ∈ ts, top ∈ fcs ∧ ∀ d ∈ fcs,
        d.peers ≤ top.peers ∧
          (d.peers = top.peers → d.isSyncing = true → top.isSyncing = true)) ∧
      (fcs.find? (fun x => x.isSyncing) = none → tp = []) ∧
      (∀ cur, fcs.find? (fun x => x.isSyncing) = some cur →
        (ts = [] ∧ tp = []) ∨
        (∃ top, ts = [top] ∧ tp = [cur] ∧ top ≠ cur ∧ cur.peers < top.peers ∧
          MIN_FINALIZED_CHAIN_VALIDATED_EPOCHS < cur.validatedEpochs))) ∧
    (∀ (chains : List SyncChain) (r : List SyncChain × List SyncChain),
      updateFinalizedChains
          (chains.filter (fun x => x.syncType = RangeSyncType.finalized)) = some r →
      updateChains chains = r) := by
  constructor
  · intro fcs ts tp hupd
    simp only [updateFinalizedChains] at hupd
    split at hupd
    · exact absurd hupd (by simp)
    · rename_i newChain hhead
      obtain ⟨sortTail, hsort⟩ := head?_eq_some_of hhead
      have htopmem : newChain ∈ fcs := by
        have hm : newChain ∈ newChain :: sortTail := List.mem_cons_self _ _
        rw [← hsort] at hm
        exact mem_sortBy.mp hm
      have htopmax : ∀ d ∈ fcs,
          d.peers ≤ newChain.peers ∧
            (d.peers = newChain.peers → d.isSyncing = true → newChain.isSyncing = true) :=
        fun d hd => lexGeb_chain_keys (sortBy_head_ge hsort d hd)
      split at hupd
      · rename_i hfind
        obtain ⟨rfl, rfl⟩ : ts = [newChain] ∧ tp = [] := by
          obtain h := Option.some.inj hupd
          exact ⟨congrArg Prod.fst h.symm, congrArg Prod.snd h.symm⟩
        refine ⟨by simp, by simp, ?_, fun _ => rfl, ?_⟩
        · intro top htop
          obtain rfl : top = newChain := by simpa using htop
          exact ⟨htopmem, htopmax⟩
        · intro cur hcur
          rw [hfind] at hcur
          exact absurd hcur (by simp)
      · rename_i cur hfind
        split at hupd
        · rename_i hcond
          obtain ⟨rfl, rfl⟩ : ts = [newChain] ∧ tp = [cur] := by
            obtain h := Option.some.inj hupd
            exact ⟨congrArg Prod.fst h.symm, congrArg Prod.snd h.symm⟩
          refine ⟨by simp, by simp, ?_, ?_, ?_⟩
          · intro top htop
            obtain rfl : top = newChain := by simpa using htop
            exact ⟨htopmem, htopmax⟩
          · intro hnone
            rw [hfind] at hnone
            exact absurd hnone (by simp)
          · intro cur2 hcur2
            rw [hfind] at hcur2
            obtain rfl : cur = cur2 := Option.some.inj hcur2
            exact Or.inr ⟨newChain, rfl, rfl, hcond.1, hcond.2.1, hcond.2.2⟩
        · obtain ⟨rfl, rfl⟩ : ts = [] ∧ tp = [] := by
            obtain h := Option.some.inj hupd
            exact ⟨congrArg Prod.fst h.symm, congrArg Prod.snd h.symm⟩
          refine ⟨by simp, by simp, ?_, fun _ => rfl, fun _ _ => Or.inl ⟨rfl, rfl⟩⟩
          intro top htop
          exact absurd htop (by simp)
  · intro chains r hupd
    simp only [updateChains]
    rw [hupd]

/-- C9 witness: a 3-peer stopped chain versus the currently syncing 1-peer chain
with 11 validated epochs: the selection starts the former and stops the latter. -/
theorem c9_witness :
    ([chainThreePeers] : List SyncChain).length ≤ 1 ∧
    chainOnePeerSyncing.peers ≤ chainThreePeers.peers ∧
    updateChains [chainThreePeers, chainOnePeerSyncing] =
      ([chainThreePeers], [chainOnePeerSyncing]) := by
  have h := c9_finalized_chain_selection.1 [chainThreePeers, chainOnePeerSyncing]
    [chainThreePeers] [chainOnePeerSyncing] (by decide)
  have h2 := c9_finalized_chain_selection.2 [chainThreePeers, chainOnePeerSyncing]
    ([chainThreePeers], [chainOnePeerSyncing]) (by decide)
  exact ⟨h.1, ((h.2.2.1 chainThreePeers (by decide)).2 chainOnePeerSyncing (by decide)).1, h2⟩

end LodestarRangeSync
